import Mathlib

/-!
Verification of the download-server upload/storage pipeline.

The TypeScript sources are shallowly embedded: paths and filenames are
`List Char`, byte buffers are `List Nat` (each < 256), the filesystem is an
association list from absolute paths to byte buffers, and fallible
operations return `Except String`.  Node runs on a posix container
(node:18-alpine), so `path` functions are modelled with posix semantics:
the separator is the forward slash and backslash is an ordinary character.
-/

deriving instance DecidableEq for Except

/-- Convert a string literal to the character-list representation used by
the path model. -/
def chars (s : String) : List Char := s.data

/-! ## Posix path arithmetic (`path.resolve`, `path.basename`, ...) -/

/-- Split a character list on the posix separator. Mirrors the way
`path.resolve` tokenises its input; the result is never empty and no piece
contains a slash. -/
def splitSlash : List Char → List (List Char)
  | [] => [[]]
  | c :: rest =>
    if c = '/' then [] :: splitSlash rest
    else
      match splitSlash rest with
      | [] => [[c]]
      | s :: ss => (c :: s) :: ss

/-- Join segments with single slashes (no leading or trailing slash). -/
def joinSegs : List (List Char) → List Char
  | [] => []
  | [a] => a
  | a :: rest => a ++ '/' :: joinSegs rest

/-- One step of posix normalisation: empty segments and `.` are dropped,
`..` pops the last segment (clamping at the absolute root), anything else
is pushed. -/
def normStep (acc : List (List Char)) (seg : List Char) : List (List Char) :=
  if seg = [] ∨ seg = ['.'] then acc
  else if seg = ['.', '.'] then acc.dropLast
  else acc ++ [seg]

/-- Segment stack of the normalised form of a path string. -/
def normStack (l : List Char) : List (List Char) :=
  (splitSlash l).foldl normStep []

/-- Render a segment stack as an absolute path (`/a/b`; the empty stack is
the filesystem root `/`). -/
def renderAbs (stack : List (List Char)) : List Char :=
  '/' :: joinSegs stack

/-- Normalise an absolute posix path the way `path.resolve` does: collapse
duplicate slashes, drop `.`, resolve `..` against the prefix, never keep a
trailing slash. -/
def normalizeAbs (l : List Char) : List Char :=
  renderAbs (normStack l)

/-- A path is absolute when it starts with the separator. -/
def isAbs (l : List Char) : Bool :=
  match l with
  | '/' :: _ => true
  | _ => false

/-- Model of a single-argument `path.resolve(p)` for the absolute paths
used by the storage code (for a relative argument Node would prepend the
process working directory; every root in this development is absolute, and
the theorems carry that hypothesis). -/
def resolveOne (l : List Char) : List Char := normalizeAbs l

/-- Model of `path.resolve(base, rel)` with an absolute `base`: an absolute
`rel` wins outright, otherwise `rel` is appended to `base` and the whole
string is normalised. -/
def nodeResolve (base rel : List Char) : List Char :=
  if isAbs rel then normalizeAbs rel else normalizeAbs (base ++ '/' :: rel)

/-- Segments of a path string, ignoring empty pieces (so `/a//b/` and
`/a/b` agree). Used to state what "inside the root" means. -/
def pathSegments (l : List Char) : List (List Char) :=
  (splitSlash l).filter (fun s => s ≠ [])

/-- Embedding of `safeJoin` (src/utils/file-utils.ts): resolve the root,
resolve the joined path, and reject the result unless it equals the root or
extends it across a separator boundary. -/
def safeJoin (root relative : List Char) : Except String (List Char) :=
  let normalizedRoot := resolveOne root
  let joined := nodeResolve normalizedRoot relative
  if ¬ (normalizedRoot ++ ['/']).isPrefixOf joined ∧ joined ≠ normalizedRoot then
    .error "Invalid path: outside of storage root"
  else
    .ok joined

/-- Strip the leading run of slashes (the regex replace of `^\/*`). -/
def dropLeadingSlashes (l : List Char) : List Char :=
  l.dropWhile (fun c => c = '/')

/-- Embedding of `UploadService.resolvePath` (src/services/upload.service.ts):
strip leading slashes from the optional upload path, resolve it against the
storage root, and accept whenever the resolved string merely starts with
the root string (no separator boundary). -/
def resolvePath (storageRoot : List Char) (uploadPath : Option (List Char)) :
    Except String (List Char) :=
  let safePath := match uploadPath with
    | some u => dropLeadingSlashes u
    | none => []
  let resolved := nodeResolve storageRoot safePath
  if ¬ storageRoot.isPrefixOf resolved then
    .error "Invalid upload path"
  else
    .ok resolved

/-! ## Structural lemmas about the path model -/

/-- A segment stack is well formed when every segment is nonempty and free
of separators; normalisation only ever produces such stacks. -/
def goodStack (stack : List (List Char)) : Prop :=
  ∀ s ∈ stack, s ≠ [] ∧ '/' ∉ s

theorem splitSlash_ne_nil (l : List Char) : splitSlash l ≠ [] := by
  cases l with
  | nil => simp [splitSlash]
  | cons c rest =>
    simp only [splitSlash]
    split
    · simp
    · cases h : splitSlash rest <;> simp

theorem not_slash_of_mem_splitSlash {l : List Char} {s : List Char}
    (hs : s ∈ splitSlash l) : '/' ∉ s := by
  induction l generalizing s with
  | nil => simp [splitSlash] at hs; simp [hs]
  | cons c rest ih =>
    simp only [splitSlash] at hs
    split at hs
    · rcases List.mem_cons.mp hs with rfl | h
      · simp
      · exact ih h
    · rename_i hc
      rcases hsplit : splitSlash rest with _ | ⟨t, ts⟩
      · exact absurd hsplit (splitSlash_ne_nil rest)
      · rw [hsplit] at hs
        rcases List.mem_cons.mp hs with rfl | h
        · intro hmem
          rcases List.mem_cons.mp hmem with h1 | h1
          · exact hc h1.symm
          · exact ih (by rw [hsplit]; exact List.mem_cons_self t ts) h1
        · exact ih (by rw [hsplit]; exact List.mem_cons.mpr (Or.inr h))

theorem goodStack_normStep {acc : List (List Char)} {seg : List Char}
    (hacc : goodStack acc) (hseg : '/' ∉ seg) : goodStack (normStep acc seg) := by
  unfold normStep
  split
  · exact hacc
  · split
    · intro s hs
      exact hacc s (List.dropLast_subset acc hs)
    · rename_i h1 h2
      intro s hs
      rcases List.mem_append.mp hs with h | h
      · exact hacc s h
      · rcases List.mem_singleton.mp h with rfl
        exact ⟨fun he => h1 (Or.inl he), hseg⟩

theorem goodStack_normStack (l : List Char) : goodStack (normStack l) := by
  unfold normStack
  have h : ∀ (segs : List (List Char)) (acc : List (List Char)),
      goodStack acc → (∀ s ∈ segs, '/' ∉ s) → goodStack (segs.foldl normStep acc) := by
    intro segs
    induction segs with
    | nil => intro acc ha _; exact ha
    | cons s rest ih =>
      intro acc ha hm
      exact ih (normStep acc s) (goodStack_normStep ha (hm s (List.mem_cons_self s rest)))
        (fun t ht => hm t (List.mem_cons.mpr (Or.inr ht)))
  exact h (splitSlash l) [] (by intro s hs; simp at hs)
    (fun s hs => not_slash_of_mem_splitSlash hs)

theorem splitSlash_of_no_slash {a : List Char} (ha : '/' ∉ a) :
    splitSlash a = [a] := by
  induction a with
  | nil => simp [splitSlash]
  | cons c rest ih =>
    have hc : c ≠ '/' := fun h => ha (by simp [h])
    have hr : '/' ∉ rest := fun h => ha (List.mem_cons.mpr (Or.inr h))
    simp only [splitSlash, if_neg hc, ih hr]

theorem splitSlash_append_slash {a : List Char} (t : List Char) (ha : '/' ∉ a) :
    splitSlash (a ++ '/' :: t) = a :: splitSlash t := by
  induction a with
  | nil => simp [splitSlash]
  | cons c rest ih =>
    have hc : c ≠ '/' := fun h => ha (by simp [h])
    have hr : '/' ∉ rest := fun h => ha (List.mem_cons.mpr (Or.inr h))
    simp only [List.cons_append, splitSlash, if_neg hc]
    rw [show rest.append ('/' :: t) = rest ++ '/' :: t from rfl, ih hr]

theorem filter_splitSlash_joinSegs {A : List (List Char)} (hA : goodStack A) :
    (splitSlash (joinSegs A)).filter (fun s => s ≠ []) = A := by
  induction A with
  | nil => simp [joinSegs, splitSlash]
  | cons a rest ih =>
    have ha := hA a (List.mem_cons_self a rest)
    have hrest : goodStack rest := fun s hs => hA s (List.mem_cons.mpr (Or.inr hs))
    cases rest with
    | nil =>
      simp only [joinSegs, splitSlash_of_no_slash ha.2]
      simp [ha.1]
    | cons b bs =>
      have hstep : joinSegs (a :: b :: bs) = a ++ '/' :: joinSegs (b :: bs) := rfl
      rw [hstep, splitSlash_append_slash _ ha.2, List.filter_cons]
      simp only [ha.1, ih hrest]
      simp [ha.1]

theorem pathSegments_renderAbs {A : List (List Char)} (hA : goodStack A) :
    pathSegments (renderAbs A) = A := by
  unfold pathSegments renderAbs
  have hsplit : splitSlash ('/' :: joinSegs A) = [] :: splitSlash (joinSegs A) := by
    simp [splitSlash]
  rw [hsplit, List.filter_cons]
  simpa using filter_splitSlash_joinSegs hA

theorem seg_slash_prefix_split {a b u v : List Char} (hua : '/' ∉ a) (hub : '/' ∉ b)
    (h : (a ++ '/' :: u) <+: (b ++ '/' :: v)) : a = b ∧ u <+: v := by
  induction a generalizing b with
  | nil =>
    cases b with
    | nil =>
      have h2 : u <+: v := by simpa using h
      exact ⟨rfl, h2⟩
    | cons d b2 =>
      exfalso
      have h2 : '/' = d ∧ u <+: b2 ++ '/' :: v := by simpa using h
      exact hub (by simp [← h2.1])
  | cons c a2 ih =>
    cases b with
    | nil =>
      exfalso
      have h2 : c = '/' ∧ a2 ++ '/' :: u <+: v := by simpa using h
      exact hua (by simp [h2.1])
    | cons d b2 =>
      have h2 : c = d ∧ a2 ++ '/' :: u <+: b2 ++ '/' :: v := by simpa using h
      have ha2 : '/' ∉ a2 := fun hm => hua (List.mem_cons.mpr (Or.inr hm))
      have hb2 : '/' ∉ b2 := fun hm => hub (List.mem_cons.mpr (Or.inr hm))
      rcases ih ha2 hb2 h2.2 with ⟨rfl, hpre⟩
      exact ⟨by rw [h2.1], hpre⟩

theorem stack_prefix_of_joined {A B : List (List Char)} (hA : goodStack A)
    (hB : goodStack B) (h : (joinSegs A ++ ['/']) <+: joinSegs B) : A <+: B := by
  induction A generalizing B with
  | nil => exact List.nil_prefix
  | cons a as ih =>
    have ha := hA a (List.mem_cons_self a as)
    have has : goodStack as := fun s hs => hA s (List.mem_cons.mpr (Or.inr hs))
    cases B with
    | nil =>
      exfalso
      rw [show joinSegs ([] : List (List Char)) = [] from rfl, List.prefix_nil] at h
      have : joinSegs (a :: as) = [] ∧ (['/'] : List Char) = [] := by
        exact List.append_eq_nil.mp h
      simpa using this.2
    | cons b bs =>
      have hb := hB b (List.mem_cons_self b bs)
      have hbs : goodStack bs := fun s hs => hB s (List.mem_cons.mpr (Or.inr hs))
      cases bs with
      | nil =>
        exfalso
        have hsub : '/' ∈ joinSegs [b] := by
          have hmem : '/' ∈ joinSegs (a :: as) ++ ['/'] := by simp
          exact h.subset hmem
        exact hb.2 (by simpa [joinSegs] using hsub)
      | cons b2 bs2 =>
        have hshape : joinSegs (b :: b2 :: bs2) = b ++ '/' :: joinSegs (b2 :: bs2) := rfl
        cases as with
        | nil =>
          have hshapeA : joinSegs [a] ++ ['/'] = a ++ '/' :: ([] : List Char) := by
            simp [joinSegs]
          rw [hshapeA, hshape] at h
          rcases seg_slash_prefix_split ha.2 hb.2 h with ⟨rfl, _⟩
          exact List.cons_prefix_cons.mpr ⟨rfl, List.nil_prefix⟩
        | cons a2 as2 =>
          have hshapeA : joinSegs (a :: a2 :: as2) ++ ['/']
              = a ++ '/' :: (joinSegs (a2 :: as2) ++ ['/']) := by
            simp [joinSegs]
          rw [hshapeA, hshape] at h
          rcases seg_slash_prefix_split ha.2 hb.2 h with ⟨rfl, hrest⟩
          exact List.cons_prefix_cons.mpr ⟨rfl, ih has hbs hrest⟩

/-! ## C1: path resolution stays inside the root -/

/-- C1 (amended) — `safeJoin` never returns a path outside its root: for an
absolute root, every successful result is the normalised root itself or a
path whose segment list strictly extends the segments of the normalised
root (the string check uses a separator boundary, so sibling directories
such as `rootEVIL` are rejected); all other inputs fail with the
path-traversal error. The original claim also asserted this for
`UploadService.resolvePath`, which is refuted by
`C1_counterexample_resolvePath_escapes`. -/
theorem C1_safeJoin_never_escapes_root (root rel p : List Char)
    (_hroot : isAbs root = true) (h : safeJoin root rel = .ok p) :
    pathSegments (resolveOne root) <+: pathSegments p := by
  unfold safeJoin at h
  set nr := resolveOne root with hnr
  set j := nodeResolve nr rel with hj
  by_cases hcond : ¬ (nr ++ ['/']).isPrefixOf j ∧ j ≠ nr
  · rw [if_pos hcond] at h
    exact absurd h (by simp)
  · rw [if_neg hcond] at h
    have hpj : p = j := by
      have := h
      simpa using this.symm
    have hA : goodStack (normStack root) := goodStack_normStack root
    have hnrA : nr = renderAbs (normStack root) := rfl
    have hBex : ∃ B, goodStack B ∧ j = renderAbs B := by
      rw [hj]
      unfold nodeResolve
      by_cases habs : isAbs rel = true
      · exact ⟨normStack rel, goodStack_normStack rel, by simp [habs, normalizeAbs]⟩
      · refine ⟨normStack (nr ++ '/' :: rel), goodStack_normStack _, ?_⟩
        simp [habs, normalizeAbs]
    rcases hBex with ⟨B, hB, hjB⟩
    rcases not_and_or.mp hcond with hpf | hne
    · have hpf2 : (nr ++ ['/']).isPrefixOf j = true := by
        by_contra hc
        exact hpf (by simpa using hc)
      have hpre : (nr ++ ['/']) <+: j := List.isPrefixOf_iff_prefix.mp hpf2
      rw [hnrA, hjB] at hpre
      have hstep : (joinSegs (normStack root) ++ ['/']) <+: joinSegs B := by
        have : ('/' :: (joinSegs (normStack root) ++ ['/'])) <+: ('/' :: joinSegs B) := by
          simpa [renderAbs] using hpre
        exact (List.cons_prefix_cons.mp this).2
      have hstack : normStack root <+: B := stack_prefix_of_joined hA hB hstep
      rw [hpj, hjB, hnrA, pathSegments_renderAbs hA, pathSegments_renderAbs hB]
      exact hstack
    · have hje : j = nr := by
        by_contra hc
        exact hne hc
      rw [hpj, hje]

/-- C1 witness: a concrete absolute root and a relative input containing a
`..` segment on which `safeJoin` succeeds, with the containment conclusion
instantiated. -/
theorem C1_safeJoin_never_escapes_root_witness :
    isAbs (chars "/srv/root") = true ∧
    safeJoin (chars "/srv/root") (chars "a/../b") = .ok (chars "/srv/root/b") ∧
    pathSegments (resolveOne (chars "/srv/root")) <+: pathSegments (chars "/srv/root/b") := by
  refine ⟨by decide, by decide, ?_⟩
  have h := C1_safeJoin_never_escapes_root (chars "/srv/root") (chars "a/../b")
    (chars "/srv/root/b") (by decide) (by decide)
  exact h

/-- C1 counterexample — `UploadService.resolvePath` checks only a bare
string prefix, so the traversal input `../rootEVIL` resolves to the sibling
directory `/srv/rootEVIL`, which is returned successfully although it lies
outside the root `/srv/root`. -/
theorem C1_counterexample_resolvePath_escapes :
    resolvePath (chars "/srv/root") (some (chars "../rootEVIL"))
      = .ok (chars "/srv/rootEVIL") ∧
    ¬ pathSegments (resolveOne (chars "/srv/root")) <+: pathSegments (chars "/srv/rootEVIL") := by
  constructor
  · decide
  · decide

/-! ## Filename sanitisers (src/utils/file-utils.ts and src/utils/storage-util.ts) -/

/-- Character class of the JavaScript regex `\s` (ECMAScript WhiteSpace and
LineTerminator code points), written over code points. -/
def isJsSpace (c : Char) : Bool :=
  decide (c.toNat = 32 ∨ c.toNat = 9 ∨ c.toNat = 10 ∨ c.toNat = 11 ∨ c.toNat = 12 ∨
    c.toNat = 13 ∨ c.toNat = 0xa0 ∨ c.toNat = 0x1680 ∨
    (0x2000 ≤ c.toNat ∧ c.toNat ≤ 0x200a) ∨ c.toNat = 0x2028 ∨ c.toNat = 0x2029 ∨
    c.toNat = 0x202f ∨ c.toNat = 0x205f ∨ c.toNat = 0x3000 ∨ c.toNat = 0xfeff)

/-- Character class of `[a-zA-Z0-9\-_.]`, the characters both sanitisers
keep, written over code points. -/
def isSafeChar (c : Char) : Bool :=
  decide ((97 ≤ c.toNat ∧ c.toNat ≤ 122) ∨ (65 ≤ c.toNat ∧ c.toNat ≤ 90) ∨
    (48 ≤ c.toNat ∧ c.toNat ≤ 57) ∨ c.toNat = 45 ∨ c.toNat = 95 ∨ c.toNat = 46)

/-- The regex replace `[^a-zA-Z0-9\-_.] -> "_"` applied to one character. -/
def substUnsafe (c : Char) : Char :=
  if isSafeChar c then c else '_'

/-- Worker for the regex replace `\s+ -> fill`: each maximal whitespace run
becomes a single fill character (`inRun` remembers whether the previous
character belonged to a run). -/
def collapseWsGo (fill : Char) (inRun : Bool) : List Char → List Char
  | [] => []
  | c :: rest =>
    if isJsSpace c then
      if inRun then collapseWsGo fill true rest
      else fill :: collapseWsGo fill true rest
    else c :: collapseWsGo fill false rest

/-- The regex replace `\s+ -> fill` over a whole string. -/
def collapseWs (fill : Char) (l : List Char) : List Char :=
  collapseWsGo fill false l

/-- Model of posix `path.basename`: ignore trailing separators, return the
part after the last remaining separator (a path that is all separators has
basename `/`, the empty path stays empty). -/
def posixBasename (l : List Char) : List Char :=
  if l = [] then []
  else
    let stripped := l.reverse.dropWhile (fun c => c = '/')
    if stripped = [] then ['/']
    else (stripped.takeWhile (fun c => c ≠ '/')).reverse

/-- The regex replace `^_+|_+$ -> ""`: drop the leading and the trailing
run of underscores. -/
def trimUnderscores (l : List Char) : List Char :=
  (((l.dropWhile (fun c => c = '_')).reverse.dropWhile (fun c => c = '_'))).reverse

/-- Embedding of `sanitizeFilename` (src/utils/file-utils.ts): empty input
is returned as is; otherwise take the basename, collapse whitespace runs to
`_`, replace every unsafe character with `_`, trim leading/trailing
underscores, and truncate to 200 characters. -/
def sanitizeFilename (name : List Char) : List Char :=
  if name = [] then []
  else
    let base := posixBasename name
    let cleaned := trimUnderscores ((collapseWs '_' base).map substUnsafe)
    cleaned.take 200

/-- Embedding of `_sanitizeFilenameFallback` (src/utils/storage-util.ts):
collapse whitespace runs to `-`, replace unsafe characters with `_`, and
truncate to 200 characters (no basename step and no trimming). -/
def _sanitizeFilenameFallback (name : List Char) : List Char :=
  ((collapseWs '-' name).map substUnsafe).take 200

/-! ## C4: lemmas about the sanitisers -/

theorem isSafeChar_not_space {c : Char} (h : isSafeChar c = true) :
    isJsSpace c = false := by
  unfold isSafeChar at h
  unfold isJsSpace
  rw [decide_eq_true_eq] at h
  rw [decide_eq_false_iff_not]
  intro hsp
  rcases h with ⟨h1, h2⟩ | ⟨h1, h2⟩ | ⟨h1, h2⟩ | he | he | he <;>
    rcases hsp with hs | hs | hs | hs | hs | hs | hs | hs | ⟨hs1, hs2⟩ | hs | hs | hs | hs | hs | hs <;>
    omega

theorem substUnsafe_safe (c : Char) : isSafeChar (substUnsafe c) = true := by
  unfold substUnsafe
  by_cases h : isSafeChar c = true
  · simp [h]
  · simp [h]
    decide

theorem dropWhile_eq_self_of_not {α : Type} {p : α → Bool} {l : List α}
    (h : ∀ a ∈ l, p a = false) : l.dropWhile p = l := by
  cases l with
  | nil => rfl
  | cons c t => simp [List.dropWhile, h c (List.mem_cons_self c t)]

theorem collapseWsGo_of_no_space {fill : Char} {b : Bool} {l : List Char}
    (h : ∀ a ∈ l, isJsSpace a = false) : collapseWsGo fill b l = l := by
  induction l generalizing b with
  | nil => rfl
  | cons c t ih =>
    have hc := h c (List.mem_cons_self c t)
    simp only [collapseWsGo, hc]
    simp only [Bool.false_eq_true, if_false]
    rw [ih (fun a ha => h a (List.mem_cons.mpr (Or.inr ha)))]

theorem map_substUnsafe_id {l : List Char} (h : ∀ a ∈ l, isSafeChar a = true) :
    l.map substUnsafe = l := by
  induction l with
  | nil => rfl
  | cons c t ih =>
    simp only [List.map_cons]
    rw [show substUnsafe c = c from by unfold substUnsafe; simp [h c (List.mem_cons_self c t)],
      ih (fun a ha => h a (List.mem_cons.mpr (Or.inr ha)))]

theorem posixBasename_no_slash {l : List Char} (h : '/' ∉ l) :
    posixBasename l = l := by
  unfold posixBasename
  by_cases hl : l = []
  · simp [hl]
  · rw [if_neg hl]
    have hrev : ∀ a ∈ l.reverse, (a = '/' : Bool) = false := by
      intro a ha
      have : a ∈ l := List.mem_reverse.mp ha
      simp only [decide_eq_false_iff_not]
      intro he
      exact h (he ▸ this)
    rw [dropWhile_eq_self_of_not hrev]
    rw [if_neg (by simpa using hl)]
    rw [List.takeWhile_eq_self_iff.mpr (by
      intro a ha
      have : a ∈ l := List.mem_reverse.mp ha
      simp only [ne_eq, decide_eq_true_eq]
      intro he
      exact h (he ▸ this))]
    exact List.reverse_reverse l

theorem head?_dropWhile_ne {α : Type} (p : α → Bool) (l : List α) {a : α}
    (h : (l.dropWhile p).head? = some a) : p a = false := by
  induction l with
  | nil => simp [List.dropWhile] at h
  | cons c t ih =>
    by_cases hc : p c = true
    · rw [List.dropWhile_cons_of_pos hc] at h
      exact ih h
    · rw [List.dropWhile_cons_of_neg (by simpa using hc)] at h
      simp at h
      rw [← h]
      simpa using hc

theorem head?_of_prefix {α : Type} {u v : List α} {a : α}
    (hp : u <+: v) (h : u.head? = some a) : v.head? = some a := by
  cases u with
  | nil => simp at h
  | cons c t =>
    cases v with
    | nil => simp [List.prefix_nil] at hp
    | cons d s =>
      have := (List.cons_prefix_cons.mp hp).1
      simp at h
      simp [← this, h]

theorem trimUnderscores_head {l : List Char} {a : Char}
    (h : (trimUnderscores l).head? = some a) : a ≠ '_' := by
  unfold trimUnderscores at h
  set ft := l.dropWhile (fun c => c = '_') with hft
  have hsfx : (ft.reverse.dropWhile (fun c => c = '_')) <:+ ft.reverse :=
    List.dropWhile_suffix _
  have hpre : (ft.reverse.dropWhile (fun c => c = '_')).reverse <+: ft := by
    have := List.reverse_prefix.mpr hsfx
    simpa using this
  have hhead : ft.head? = some a := head?_of_prefix hpre h
  have := head?_dropWhile_ne (fun c => (c = '_' : Bool)) l hhead
  simpa using this

theorem trimUnderscores_subset (l : List Char) : trimUnderscores l ⊆ l := by
  unfold trimUnderscores
  intro a ha
  have h1 : a ∈ (l.dropWhile (fun c => c = '_')).reverse.dropWhile (fun c => c = '_') := by
    simpa using ha
  have h2 : a ∈ (l.dropWhile (fun c => c = '_')).reverse :=
    (List.dropWhile_suffix _).subset h1
  have h3 : a ∈ l.dropWhile (fun c => c = '_') := List.mem_reverse.mp h2
  exact (List.dropWhile_suffix _).subset h3

theorem mem_sanitizeFilename_safe {x : List Char} {a : Char}
    (h : a ∈ sanitizeFilename x) : isSafeChar a = true := by
  unfold sanitizeFilename at h
  by_cases hx : x = []
  · simp [hx] at h
  · rw [if_neg hx] at h
    have h1 : a ∈ trimUnderscores ((collapseWs '_' (posixBasename x)).map substUnsafe) :=
      List.take_subset _ _ h
    have h2 : a ∈ (collapseWs '_' (posixBasename x)).map substUnsafe :=
      trimUnderscores_subset _ h1
    rcases List.mem_map.mp h2 with ⟨b, _, rfl⟩
    exact substUnsafe_safe b

theorem take_succ_head? {α : Type} (n : Nat) (l : List α) :
    (l.take (n + 1)).head? = l.head? := by
  cases l <;> simp

theorem trimUnderscores_eq_self {l : List Char}
    (hh : ∀ a, l.head? = some a → a ≠ '_')
    (hl : ∀ a, l.getLast? = some a → a ≠ '_') : trimUnderscores l = l := by
  unfold trimUnderscores
  have h1 : l.dropWhile (fun c => c = '_') = l := by
    cases l with
    | nil => rfl
    | cons c t =>
      have : c ≠ '_' := hh c (by simp)
      simp [List.dropWhile, this]
  rw [h1]
  have h2 : l.reverse.dropWhile (fun c => c = '_') = l.reverse := by
    cases hrev : l.reverse with
    | nil => rfl
    | cons c t =>
      have hc : l.getLast? = some c := by
        rw [← List.head?_reverse, hrev]
        rfl
      have : c ≠ '_' := hl c hc
      simp [List.dropWhile, this]
  rw [h2, List.reverse_reverse]

theorem sanitizeFilename_head {x : List Char} {a : Char}
    (h : (sanitizeFilename x).head? = some a) : a ≠ '_' := by
  unfold sanitizeFilename at h
  by_cases hx : x = []
  · simp [hx] at h
  · rw [if_neg hx] at h
    rw [show (200 : Nat) = 199 + 1 from rfl, take_succ_head?] at h
    exact trimUnderscores_head h

theorem sanitizeFilename_length_le (x : List Char) :
    (sanitizeFilename x).length ≤ 200 := by
  unfold sanitizeFilename
  by_cases hx : x = []
  · simp [hx]
  · rw [if_neg hx]
    exact List.length_take_le _ _

theorem fallback_length_le (x : List Char) :
    (_sanitizeFilenameFallback x).length ≤ 200 := by
  unfold _sanitizeFilenameFallback
  exact List.length_take_le _ _

theorem mem_fallback_safe {x : List Char} {a : Char}
    (h : a ∈ _sanitizeFilenameFallback x) : isSafeChar a = true := by
  unfold _sanitizeFilenameFallback at h
  have h1 : a ∈ (collapseWs '-' x).map substUnsafe := List.take_subset _ _ h
  rcases List.mem_map.mp h1 with ⟨b, _, rfl⟩
  exact substUnsafe_safe b

theorem fallback_idempotent (x : List Char) :
    _sanitizeFilenameFallback (_sanitizeFilenameFallback x)
      = _sanitizeFilenameFallback x := by
  set f := _sanitizeFilenameFallback x with hf
  have hsafe : ∀ a ∈ f, isSafeChar a = true := fun a ha => mem_fallback_safe ha
  have hnospace : ∀ a ∈ f, isJsSpace a = false :=
    fun a ha => isSafeChar_not_space (hsafe a ha)
  show ((collapseWs '-' f).map substUnsafe).take 200 = f
  unfold collapseWs
  rw [collapseWsGo_of_no_space hnospace, map_substUnsafe_id hsafe,
    List.take_of_length_le (fallback_length_le x)]

theorem sanitizeFilename_idem_of_no_trailing (x : List Char)
    (h : ∀ a, (sanitizeFilename x).getLast? = some a → a ≠ '_') :
    sanitizeFilename (sanitizeFilename x) = sanitizeFilename x := by
  set s := sanitizeFilename x with hs
  have hsafe : ∀ a ∈ s, isSafeChar a = true := fun a ha => mem_sanitizeFilename_safe ha
  have hnospace : ∀ a ∈ s, isJsSpace a = false :=
    fun a ha => isSafeChar_not_space (hsafe a ha)
  have hnoslash : '/' ∉ s := by
    intro hmem
    have := hsafe '/' hmem
    simp [isSafeChar] at this
  by_cases hsnil : s = []
  · rw [hsnil]
    rfl
  · unfold sanitizeFilename
    rw [if_neg hsnil]
    rw [posixBasename_no_slash hnoslash]
    show (trimUnderscores ((collapseWsGo '_' false s).map substUnsafe)).take 200 = s
    rw [collapseWsGo_of_no_space hnospace, map_substUnsafe_id hsafe]
    rw [trimUnderscores_eq_self (fun a ha => sanitizeFilename_head (hs ▸ ha)) h]
    exact List.take_of_length_le (hs ▸ sanitizeFilename_length_le x)

/-- C4 (amended) — both sanitisers are length-bounded by 200, and
`_sanitizeFilenameFallback` is idempotent; `sanitizeFilename` is idempotent
on every input whose sanitised form does not end in an underscore (the
truncation to 200 characters can expose a trailing underscore that the
trim step of a second application removes, so unrestricted idempotence
fails; see `C4_counterexample_truncation_breaks_idempotence`). -/
theorem C4_sanitizers_bounded_and_idempotent :
    (∀ x, (sanitizeFilename x).length ≤ 200) ∧
    (∀ x, (_sanitizeFilenameFallback x).length ≤ 200) ∧
    (∀ x, _sanitizeFilenameFallback (_sanitizeFilenameFallback x)
        = _sanitizeFilenameFallback x) ∧
    (∀ x, (sanitizeFilename x).getLast? ≠ some '_' →
      sanitizeFilename (sanitizeFilename x) = sanitizeFilename x) := by
  refine ⟨sanitizeFilename_length_le, fallback_length_le, fallback_idempotent, ?_⟩
  intro x h
  exact sanitizeFilename_idem_of_no_trailing x (fun a ha hae => h (hae ▸ ha))

/-- C4 witness: the theorem instantiated at a concrete filename whose
sanitised form (`My_Photo__.PNG`) does not end in an underscore. -/
theorem C4_sanitizers_witness :
    (sanitizeFilename (chars "My Photo!!.PNG")).getLast? ≠ some '_' ∧
    sanitizeFilename (sanitizeFilename (chars "My Photo!!.PNG"))
      = sanitizeFilename (chars "My Photo!!.PNG") :=
  ⟨by decide, C4_sanitizers_bounded_and_idempotent.2.2.2 (chars "My Photo!!.PNG") (by decide)⟩

set_option maxRecDepth 4000 in
/-- C4 counterexample — `sanitizeFilename` is not idempotent: on 199 `a`s
followed by `_a` (201 characters) the first pass truncates to 200
characters ending in `_`, and the second pass trims that underscore,
shortening the name again. -/
theorem C4_counterexample_truncation_breaks_idempotence :
    sanitizeFilename (sanitizeFilename (List.replicate 199 'a' ++ ['_', 'a']))
      ≠ sanitizeFilename (List.replicate 199 'a' ++ ['_', 'a']) := by
  decide

/-! ## Content hasher
Model of `computeSha256` (src/utils/file-utils.ts), which delegates to
Node `crypto.createHash("sha256")`. The hash itself is an excluded
collaborator, so it is modelled from the spec as FIPS 180-4 SHA-256 over
the byte list, hex encoded. -/

/-- Reduce to a 32-bit word. -/
def w32 (n : Nat) : Nat := n % 4294967296

/-- Right rotation of a 32-bit word. -/
def rotr32 (n x : Nat) : Nat := w32 ((x >>> n) + (x % 2 ^ n) * 2 ^ (32 - n))

def shaCh (x y z : Nat) : Nat := (x &&& y) ^^^ ((x ^^^ 0xffffffff) &&& z)

def shaMaj (x y z : Nat) : Nat := (x &&& y) ^^^ (x &&& z) ^^^ (y &&& z)

def bigSigma0 (x : Nat) : Nat := rotr32 2 x ^^^ rotr32 13 x ^^^ rotr32 22 x

def bigSigma1 (x : Nat) : Nat := rotr32 6 x ^^^ rotr32 11 x ^^^ rotr32 25 x

def smallSigma0 (x : Nat) : Nat := rotr32 7 x ^^^ rotr32 18 x ^^^ (x >>> 3)

def smallSigma1 (x : Nat) : Nat := rotr32 17 x ^^^ rotr32 19 x ^^^ (x >>> 10)

/-- SHA-256 round constants (FIPS 180-4 section 4.2.2, written in
decimal). -/
def shaK : List Nat :=
  [1116352408, 1899447441, 3049323471, 3921009573, 961987163,
   1508970993, 2453635748, 2870763221, 3624381080, 310598401,
   607225278, 1426881987, 1925078388, 2162078206, 2614888103,
   3248222580, 3835390401, 4022224774, 264347078, 604807628,
   770255983, 1249150122, 1555081692, 1996064986, 2554220882,
   2821834349, 2952996808, 3210313671, 3336571891, 3584528711,
   113926993, 338241895, 666307205, 773529912, 1294757372,
   1396182291, 1695183700, 1986661051, 2177026350, 2456956037,
   2730485921, 2820302411, 3259730800, 3345764771, 3516065817,
   3600352804, 4094571909, 275423344, 430227734, 506948616,
   659060556, 883997877, 958139571, 1322822218, 1537002063,
   1747873779, 1955562222, 2024104815, 2227730452, 2361852424,
   2428436474, 2756734187, 3204031479, 3329325298]

/-- SHA-256 initial hash state (FIPS 180-4 section 5.3.3, in decimal). -/
def shaH0 : List Nat :=
  [1779033703, 3144134277, 1013904242, 2773480762,
   1359893119, 2600822924, 528734635, 1541459225]

/-- Big-endian byte encoding of a number into `k` bytes. -/
def natToBytesBE (k n : Nat) : List Nat :=
  (List.range k).reverse.map (fun i => n / 2 ^ (8 * i) % 256)

/-- Pad a message to a multiple of 64 bytes: append `0x80`, zero fill, and
the bit length as a 64-bit big-endian number. -/
def sha256Pad (msg : List Nat) : List Nat :=
  let z := (64 - (msg.length + 9) % 64) % 64
  msg ++ [0x80] ++ List.replicate z 0 ++ natToBytesBE 8 (8 * msg.length % 2 ^ 64)

/-- Group four big-endian bytes into one 32-bit word. -/
def bytesToWords : List Nat → List Nat
  | b0 :: b1 :: b2 :: b3 :: rest => (((b0 * 256 + b1) * 256 + b2) * 256 + b3) :: bytesToWords rest
  | _ => []

/-- Split into 64-byte blocks (fuel-driven so the recursion is structural;
the fuel is always sufficient for the padded message). -/
def chunk64Go : Nat → List Nat → List (List Nat)
  | 0, _ => []
  | _ + 1, [] => []
  | n + 1, l => l.take 64 :: chunk64Go n (l.drop 64)

def chunk64 (l : List Nat) : List (List Nat) :=
  chunk64Go (l.length / 64 + 1) l

/-- Extend the 16 message words of a block to the 64 scheduled words. -/
def extendSched : Nat → List Nat → List Nat
  | 0, acc => acc
  | n + 1, acc =>
    let m := acc.length
    let next := w32 (smallSigma1 (acc.getD (m - 2) 0) + acc.getD (m - 7) 0 +
      smallSigma0 (acc.getD (m - 15) 0) + acc.getD (m - 16) 0)
    extendSched n (acc ++ [next])

/-- One SHA-256 round on the state `[a,b,c,d,e,f,g,h]`. -/
def shaRound (st : List Nat) (kw : Nat × Nat) : List Nat :=
  match st with
  | [a, b, c, d, e, f, g, h] =>
    let t1 := w32 (h + bigSigma1 e + shaCh e f g + kw.1 + kw.2)
    let t2 := w32 (bigSigma0 a + shaMaj a b c)
    [w32 (t1 + t2), a, b, c, w32 (d + t1), e, f, g]
  | _ => st

/-- Compress one 64-byte block into the running hash state. -/
def shaCompress (h : List Nat) (block : List Nat) : List Nat :=
  let w := extendSched 48 (bytesToWords block)
  let st := (shaK.zip w).foldl shaRound h
  (h.zip st).map (fun p => w32 (p.1 + p.2))

/-- SHA-256 digest (32 bytes) of a byte list. -/
def sha256 (msg : List Nat) : List Nat :=
  (((chunk64 (sha256Pad msg)).foldl shaCompress shaH0).map (natToBytesBE 4)).flatten

def hexDigit (n : Nat) : Char :=
  if n < 10 then Char.ofNat (48 + n) else Char.ofNat (87 + n)

def byteToHex (b : Nat) : List Char := [hexDigit (b / 16), hexDigit (b % 16)]

/-- Embedding of `computeSha256`: hex-encoded (lowercase) SHA-256 of a
buffer, as `crypto.createHash("sha256").update(buffer).digest("hex")`. -/
def computeSha256 (buffer : List Nat) : List Char :=
  ((sha256 buffer).map byteToHex).flatten

/-! ## Filesystem model
The disk is an association list from absolute paths to byte buffers; the
first matching entry wins, and a directory exists when some file lives
under it. -/

abbrev FS := List (List Char × List Nat)

def fsRead (fs : FS) (p : List Char) : Option (List Nat) :=
  (fs.find? (fun e => e.1 == p)).map (fun e => e.2)

def fsWrite (fs : FS) (p : List Char) (b : List Nat) : FS :=
  (p, b) :: fs.filter (fun e => !(e.1 == p))

/-- `fs.access` style existence: the exact path is a file, or some file
lives strictly below it (so the path is a directory). -/
def pathExists (fs : FS) (p : List Char) : Bool :=
  fs.any (fun e => e.1 == p || (p ++ ['/']).isPrefixOf e.1)

def fsErase (fs : FS) (p : List Char) : FS :=
  fs.filter (fun e => !(e.1 == p))

/-- Model of `fs.rm(p, { recursive: true, force: true })`: remove the file
or the whole subtree; missing paths are a no-op. -/
def fsRemoveTree (fs : FS) (p : List Char) : FS :=
  fs.filter (fun e => !(e.1 == p || (p ++ ['/']).isPrefixOf e.1))

/-! ## Atomic writer (src/utils/file-utils.ts `writeFileAtomic`) -/

/-- Fault injection for the two I/O operations of `writeFileAtomic`. -/
structure WriteFault where
  writeFails : Bool
  renameFails : Bool
deriving DecidableEq

/-- Embedding of `writeFileAtomic` as its two observable steps: write the
buffer to a sibling temp path `target.tmp-<suffix>` (the suffix stands for
the `crypto.randomBytes(6)` hex), then rename it onto the target.
`ensureDir` is a no-op in the association-list model. The source has no
try/catch: a failing step propagates its error immediately and nothing
else runs. -/
def writeFileAtomicRun (fault : WriteFault) (fs : FS) (targetPath : List Char)
    (buffer : List Nat) (suffix : List Char) : Except String Unit × FS :=
  let tmp := targetPath ++ chars ".tmp-" ++ suffix
  if fault.writeFails then (.error "writeFile failed", fs)
  else
    let fs1 := fsWrite fs tmp buffer
    if fault.renameFails then (.error "rename failed", fs1)
    else (.ok (), fsWrite (fsErase fs1 tmp) targetPath buffer)

/-- Net effect of a fault-free `writeFileAtomic` with a fresh temp suffix:
the target simply holds the buffer
(`writeFileAtomicRun_noFault` ties the two definitions together). -/
def writeFileAtomic (fs : FS) (targetPath : List Char) (buffer : List Nat) : FS :=
  fsWrite fs targetPath buffer

theorem writeFileAtomicRun_noFault (fs : FS) (p : List Char) (b : List Nat)
    (sfx : List Char) :
    writeFileAtomicRun ⟨false, false⟩ fs p b sfx
      = (.ok (), writeFileAtomic (fsErase fs (p ++ chars ".tmp-" ++ sfx)) p b) := by
  unfold writeFileAtomicRun writeFileAtomic fsWrite fsErase
  simp [List.filter_filter]

/-! ## Helpers shared by the storage service -/

/-- Decimal rendering of a Nat, as the JS template `${idx}`. -/
def natChars (n : Nat) : List Char := (toString n).data

/-- Length of the common segment prefix of two segment lists. -/
def commonPrefixLen : List (List Char) → List (List Char) → Nat
  | a :: as, b :: bs => if a = b then 1 + commonPrefixLen as bs else 0
  | _, _ => 0

/-- Model of posix `path.relative(from, to)` for absolute arguments: drop
the common segment prefix, climb out of what remains of `from`, then
descend into the rest of `to`. -/
def pathRelative (fromPath toPath : List Char) : List Char :=
  let f := pathSegments (resolveOne fromPath)
  let t := pathSegments (resolveOne toPath)
  let k := commonPrefixLen f t
  joinSegs (List.replicate (f.length - k) (chars "..") ++ t.drop k)

/-- Embedding of `absToPublicPath` (src/utils/file-utils.ts): require the
normalised path to start with the normalised root (the source check is a
bare string prefix), then return the relative path; on posix the final
separator conversion is the identity. -/
def absToPublicPath (finalRoot absolutePath : List Char) : Except String (List Char) :=
  let normalizedRoot := resolveOne finalRoot
  let normalizedPath := resolveOne absolutePath
  if ¬ normalizedRoot.isPrefixOf normalizedPath then
    .error "Path is not under final root"
  else
    .ok (pathRelative finalRoot absolutePath)

/-- Embedding of `paths.publicPathToUrl` (src/config.ts): replace
backslashes, strip leading slashes, and prepend the public base URL. -/
def publicPathToUrl (publicBaseUrl p : List Char) : List Char :=
  publicBaseUrl ++ '/' :: dropLeadingSlashes (p.map (fun c => if c = '\\' then '/' else c))

/-! ## Storage service (src/services/storage.service.ts, the temp+commit
pipeline; the source file is checked in commented out and is embedded as
written) -/

/-- One incoming multer file for the staging call. -/
structure RawUpload where
  originalname : List Char
  mimetype : List Char
  buffer : List Nat
deriving DecidableEq

/-- A staged temp file record as returned by `saveTempFiles`. -/
structure TempFileRecord where
  index : Nat
  originalName : List Char
  mime : List Char
  size : Nat
  tempPath : List Char
deriving DecidableEq

/-- A commit request for one staged file. -/
structure CommitMapping where
  tempIndex : Nat
  filename : Option (List Char)
  page_number : Option Nat
  is_cover : Option Bool
deriving DecidableEq

/-- Options of `commitTempToFinal`. -/
structure CommitOptions where
  visibility : Option (List Char)
  failIfMissing : Option Bool
deriving DecidableEq

/-- Modelled from the spec: the outcome of one invocation of the external
processing hook (image/PDF/video transform). `failed` models a throwing
hook; `output` is the content the hook left at its proposed destination
(`none` means it kept the staged bytes); the remaining fields are the
metadata it reports. -/
structure HookRun where
  failed : Bool
  output : Option (List Nat)
  mime : Option (List Char)
  width : Option Nat
  height : Option Nat

/-- The metadata record built for each committed file. -/
structure CommitResultItem where
  filename : List Char
  storage_path : List Char
  url : List Char
  mime : List Char
  width : Option Nat
  height : Option Nat
  size_bytes : Nat
  sha256 : List Char
deriving DecidableEq

/-- Worker of `saveTempFiles`: write each buffer to `<tempDir>/<index>`
through the atomic writer and record it (the source fires the writes
through `Promise.all`; each write touches a distinct path, so the
sequential model reaches the same filesystem). -/
def saveTempGo (tempDir : List Char) : Nat → FS → List RawUpload →
    List TempFileRecord × FS
  | _, fs, [] => ([], fs)
  | idx, fs, f :: rest =>
    let nm := if f.originalname = [] then chars "file-" ++ natChars idx else f.originalname
    let sanitized := sanitizeFilename nm
    let tempPath := tempDir ++ '/' :: natChars idx
    let fs1 := writeFileAtomic fs tempPath f.buffer
    let (rs, fs2) := saveTempGo tempDir (idx + 1) fs1 rest
    ({ index := idx, originalName := sanitized, mime := f.mimetype,
       size := f.buffer.length, tempPath := tempPath } :: rs, fs2)

/-- Embedding of `StorageService.saveTempFiles`: resolve the session
directory under the temp root with `safeJoin` and stage every file. -/
def saveTempFiles (tempRoot : List Char) (fs : FS) (tempId : List Char)
    (files : List RawUpload) : Except String (List TempFileRecord × FS) :=
  match safeJoin tempRoot tempId with
  | .error e => .error e
  | .ok tempDir => .ok (saveTempGo tempDir 0 fs files)

/-- Worker of `commitTempToFinal`, processing the mappings in order.
Mirrors the source loop: a missing temp entry throws only when
`options.failIfMissing` is an explicit `true` (the JS guard is the
truthiness test `if (options?.failIfMissing)`), otherwise it is skipped
with a warning; a present entry is sanitised, resolved through `safeJoin`,
optionally transformed by the hook (the hook writes to a `.proc` temp
destination that is renamed onto the final path; that intermediate name is
elided and only the surviving content is modelled), written through the
atomic writer, measured, and hashed from the bytes re-read at the final
path. -/
def commitLoop (finalRoot publicBaseUrl : List Char)
    (hook : Option (List Nat → HookRun)) (tempDir finalBaseAbs : List Char)
    (options : CommitOptions) :
    List CommitMapping → FS → Except String (List CommitResultItem × FS × List String)
  | [], fs => .ok ([], fs, [])
  | m :: rest, fs =>
    let tempPath := tempDir ++ '/' :: natChars m.tempIndex
    if ¬ pathExists fs tempPath then
      match options.failIfMissing with
      | some true => .error ("temp file index " ++ toString m.tempIndex ++ " missing")
      | _ =>
        match commitLoop finalRoot publicBaseUrl hook tempDir finalBaseAbs options rest fs with
        | .error e => .error e
        | .ok (items, fs1, warns) =>
          .ok (items, fs1,
            ("temp file index " ++ toString m.tempIndex ++ " missing - skipping") :: warns)
    else
      let filename := match m.filename with
        | some f => sanitizeFilename f
        | none => sanitizeFilename (chars "file-" ++ natChars m.tempIndex)
      match safeJoin finalBaseAbs filename with
      | .error e => .error e
      | .ok finalAbs =>
        match fsRead fs tempPath with
        | none => .error "ENOENT: temp path is not a readable file"
        | some buffer =>
          let hookStep : List Nat × Option HookRun := match hook with
            | none => (buffer, none)
            | some h =>
              let hr := h buffer
              if hr.failed then (buffer, none)
              else (hr.output.getD buffer, some hr)
          let fs1 := writeFileAtomic fs finalAbs hookStep.1
          let finalBuffer := (fsRead fs1 finalAbs).getD []
          let sha := computeSha256 finalBuffer
          match absToPublicPath finalRoot finalAbs with
          | .error e => .error e
          | .ok publicPath =>
            match commitLoop finalRoot publicBaseUrl hook tempDir finalBaseAbs options rest fs1 with
            | .error e => .error e
            | .ok (items, fs2, warns) =>
              .ok ({ filename := filename, storage_path := publicPath,
                     url := publicPathToUrl publicBaseUrl publicPath,
                     mime := (match hookStep.2 with
                       | some hr => hr.mime.getD (chars "application/octet-stream")
                       | none => chars "application/octet-stream"),
                     width := (match hookStep.2 with
                       | some hr => hr.width
                       | none => none),
                     height := (match hookStep.2 with
                       | some hr => hr.height
                       | none => none),
                     size_bytes := finalBuffer.length,
                     sha256 := sha } :: items, fs2, warns)

/-- Embedding of `StorageService.commitTempToFinal`: resolve the session
directory, require it to exist, resolve the cleaned target base under the
final root, run the mapping loop, and finally remove the whole temp
session directory. -/
def commitTempToFinal (tempRoot finalRoot publicBaseUrl : List Char)
    (hook : Option (List Nat → HookRun)) (fs : FS) (tempId targetBase : List Char)
    (mappings : List CommitMapping) (options : CommitOptions) :
    Except String (List CommitResultItem × FS × List String) :=
  match safeJoin tempRoot tempId with
  | .error e => .error e
  | .ok tempDir =>
    if ¬ pathExists fs tempDir then .error "temp id not found"
    else
      let cleanedTargetBase := dropLeadingSlashes targetBase
      match safeJoin finalRoot cleanedTargetBase with
      | .error e => .error e
      | .ok finalBaseAbs =>
        match commitLoop finalRoot publicBaseUrl hook tempDir finalBaseAbs options mappings fs with
        | .error e => .error e
        | .ok (items, fs1, warns) => .ok (items, fsRemoveTree fs1 tempDir, warns)

/-- Embedding of `StorageService.deletePath`: strip leading slashes,
resolve under the final root with `safeJoin`, and remove the file or
subtree with the force-and-recursive `safeRm` (which swallows errors, so a
missing path still succeeds). -/
def deletePath (finalRoot : List Char) (fs : FS) (relativePath : List Char) :
    Except String (Bool × FS) :=
  let cleaned := dropLeadingSlashes relativePath
  match safeJoin finalRoot cleaned with
  | .error e => .error e
  | .ok abs => .ok (true, fsRemoveTree fs abs)

/-- Modelled from the spec/config (src/config.ts): with the default host
storage driver the temp root is `<hostStoragePath>/temp`; a representative
absolute host path is fixed for the concrete theorems. -/
def TEMP_ROOT : List Char := chars "/data/media/temp"

/-- Modelled from the spec/config (src/config.ts): final storage root
`<hostStoragePath>/media` over the same representative host path. -/
def FINAL_ROOT : List Char := chars "/data/media/media"

/-- Representative public base URL (src/config.ts default). -/
def PUBLIC_BASE_URL : List Char := chars "http://localhost:4000"

/-! ## C5: failure behaviour of the atomic writer -/

/-- C5 (amended) — when `writeFileAtomic` fails at the rename step (after
the sibling temp file was written), the rename error propagates unchanged,
but the temp file is left on disk: the source has no try/catch, so no
cleanup is attempted and nothing is logged. -/
theorem C5_writeFileAtomic_rename_failure_keeps_temp (fault : WriteFault)
    (fs : FS) (target : List Char) (buffer : List Nat) (suffix : List Char)
    (hw : fault.writeFails = false) (hr : fault.renameFails = true) :
    writeFileAtomicRun fault fs target buffer suffix
      = (.error "rename failed", fsWrite fs (target ++ chars ".tmp-" ++ suffix) buffer) ∧
    fsRead (writeFileAtomicRun fault fs target buffer suffix).2
      (target ++ chars ".tmp-" ++ suffix) = some buffer := by
  obtain ⟨w, r⟩ := fault
  cases hw
  cases hr
  constructor
  · rfl
  · show fsRead (fsWrite fs (target ++ chars ".tmp-" ++ suffix) buffer)
      (target ++ chars ".tmp-" ++ suffix) = some buffer
    simp [fsRead, fsWrite, List.find?]

/-- C5 witness: the failure theorem instantiated at a concrete write. -/
theorem C5_writeFileAtomic_rename_failure_witness :
    (⟨false, true⟩ : WriteFault).writeFails = false ∧
    (⟨false, true⟩ : WriteFault).renameFails = true ∧
    writeFileAtomicRun ⟨false, true⟩ [] (chars "/data/x") [7] (chars "ab12")
      = (.error "rename failed", fsWrite [] (chars "/data/x.tmp-ab12") [7]) :=
  ⟨rfl, rfl,
    (C5_writeFileAtomic_rename_failure_keeps_temp ⟨false, true⟩ [] (chars "/data/x")
      [7] (chars "ab12") rfl rfl).1⟩

/-- C5 counterexample — the claim says the temp file is removed after a
failure between the temp write and the rename; in fact the failed run
leaves the temp file `/data/x.tmp-ab12` on disk with the written bytes. -/
theorem C5_counterexample_temp_file_remains :
    (writeFileAtomicRun ⟨false, true⟩ [] (chars "/data/x") [7] (chars "ab12")).1
      = .error "rename failed" ∧
    fsRead (writeFileAtomicRun ⟨false, true⟩ [] (chars "/data/x") [7] (chars "ab12")).2
      (chars "/data/x.tmp-ab12") = some [7] := by
  constructor
  · rfl
  · rfl

/-! ## C9: deletePath idempotence -/

theorem fsRemoveTree_idem (fs : FS) (p : List Char) :
    fsRemoveTree (fsRemoveTree fs p) p = fsRemoveTree fs p := by
  simp [fsRemoveTree, List.filter_filter]

theorem fsRemoveTree_of_not_exists {fs : FS} {p : List Char}
    (h : pathExists fs p = false) : fsRemoveTree fs p = fs := by
  unfold pathExists at h
  unfold fsRemoveTree
  rw [List.filter_eq_self]
  intro e he
  have := (List.any_eq_false.mp h) e he
  simp only [this]
  rfl

/-- C9 — `deletePath` is idempotent at its public interface: whenever the
relative path resolves inside the final root, the call returns success
(`true`) and removes the subtree; when the path does not exist the
filesystem is returned unchanged (so deleting a never-existing or an
already-deleted path is not an error), and a second delete of the same
path returns exactly the state of the first. -/
theorem C9_deletePath_idempotent (finalRoot : List Char) (fs : FS)
    (rel abs : List Char)
    (h : safeJoin finalRoot (dropLeadingSlashes rel) = .ok abs) :
    deletePath finalRoot fs rel = .ok (true, fsRemoveTree fs abs) ∧
    (pathExists fs abs = false → deletePath finalRoot fs rel = .ok (true, fs)) ∧
    deletePath finalRoot (fsRemoveTree fs abs) rel = .ok (true, fsRemoveTree fs abs) := by
  have hshape : ∀ g : FS, deletePath finalRoot g rel
      = (match safeJoin finalRoot (dropLeadingSlashes rel) with
        | .error e => .error e
        | .ok a => .ok (true, fsRemoveTree g a)) := fun g => rfl
  refine ⟨?_, ?_, ?_⟩
  · rw [hshape, h]
  · intro hne
    rw [hshape, h]
    show Except.ok (true, fsRemoveTree fs abs) = Except.ok (true, fs)
    rw [fsRemoveTree_of_not_exists hne]
  · rw [hshape (fsRemoveTree fs abs), h]
    show Except.ok (true, fsRemoveTree (fsRemoveTree fs abs) abs)
      = Except.ok (true, fsRemoveTree fs abs)
    rw [fsRemoveTree_idem]

/-- C9 witness: deleting a path that does not exist on an empty disk
returns success twice with the disk unchanged. -/
theorem C9_deletePath_witness :
    safeJoin FINAL_ROOT (dropLeadingSlashes (chars "books/9")) = .ok (chars "/data/media/media/books/9") ∧
    pathExists ([] : FS) (chars "/data/media/media/books/9") = false ∧
    deletePath FINAL_ROOT [] (chars "books/9") = .ok (true, ([] : FS)) :=
  ⟨by decide, rfl,
    (C9_deletePath_idempotent FINAL_ROOT [] (chars "books/9")
      (chars "/data/media/media/books/9") (by decide)).2.1 rfl⟩

/-! ## C7: stage/commit round-trip integrity -/

/-- C7 — round-trip integrity of the staging and commit pipeline: for every
byte buffer and every prior disk state, staging the buffer into a temp
session and committing it with no processing hook installed succeeds, the
digest recorded in the returned record is the SHA-256 of the original
bytes (recomputed from the bytes re-read at the final path after the
would-be hook step), and the final file holds exactly the original
bytes. -/
theorem C7_stage_commit_roundtrip_digest (buf : List Nat) (fs0 : FS) :
    ∃ recs fsStaged items fsFinal,
      saveTempFiles TEMP_ROOT fs0 (chars "sess7")
        [⟨chars "photo.png", chars "image/png", buf⟩] = .ok (recs, fsStaged) ∧
      commitTempToFinal TEMP_ROOT FINAL_ROOT PUBLIC_BASE_URL none fsStaged
        (chars "sess7") (chars "books/1")
        [⟨0, some (chars "cover.webp"), none, none⟩] ⟨none, none⟩
        = .ok (items, fsFinal, []) ∧
      items.map (fun i => i.sha256) = [computeSha256 buf] ∧
      fsRead fsFinal (chars "/data/media/media/books/1/cover.webp") = some buf := by
  refine ⟨[⟨0, chars "photo.png", chars "image/png", buf.length,
      chars "/data/media/temp/sess7/0"⟩],
    fsWrite fs0 (chars "/data/media/temp/sess7/0") buf,
    [⟨chars "cover.webp", chars "books/1/cover.webp",
      chars "http://localhost:4000/books/1/cover.webp",
      chars "application/octet-stream", none, none, buf.length, computeSha256 buf⟩],
    fsRemoveTree
      (fsWrite (fsWrite fs0 (chars "/data/media/temp/sess7/0") buf)
        (chars "/data/media/media/books/1/cover.webp") buf)
      (chars "/data/media/temp/sess7"),
    ?_, ?_, ?_, ?_⟩
  · rfl
  · rfl
  · rfl
  · rfl

/-! ## C6: missing temp entries at commit time -/

/-- C6 (amended) — a commit mapping whose temp index has no staged file
causes a rejection only when `options.failIfMissing` is explicitly `true`
(the JS guard is the truthiness test `if (options?.failIfMissing)`); when
the option is `false` or omitted, that mapping is skipped with a warning
and the remaining mappings are still processed. The original claim had the
default backwards; see `C6_counterexample_omitted_option_skips`. -/
theorem C6_failIfMissing_truthy_gate (buf : List Nat) (fim : Option Bool)
    (recs : List TempFileRecord) (fs : FS)
    (h : saveTempFiles TEMP_ROOT [] (chars "sess6")
      [⟨chars "a.bin", chars "application/octet-stream", buf⟩] = .ok (recs, fs)) :
    (fim = some true →
      commitTempToFinal TEMP_ROOT FINAL_ROOT PUBLIC_BASE_URL none fs (chars "sess6")
        (chars "books/2")
        [⟨5, none, none, none⟩, ⟨0, some (chars "cover.webp"), none, none⟩]
        ⟨none, fim⟩ = .error "temp file index 5 missing") ∧
    (fim ≠ some true →
      commitTempToFinal TEMP_ROOT FINAL_ROOT PUBLIC_BASE_URL none fs (chars "sess6")
        (chars "books/2")
        [⟨5, none, none, none⟩, ⟨0, some (chars "cover.webp"), none, none⟩]
        ⟨none, fim⟩
        = .ok ([⟨chars "cover.webp", chars "books/2/cover.webp",
            chars "http://localhost:4000/books/2/cover.webp",
            chars "application/octet-stream", none, none, buf.length,
            computeSha256 buf⟩],
          [(chars "/data/media/media/books/2/cover.webp", buf)],
          ["temp file index 5 missing - skipping"])) := by
  have h2 : (([⟨0, chars "a.bin", chars "application/octet-stream", buf.length,
      chars "/data/media/temp/sess6/0"⟩] : List TempFileRecord),
      ([(chars "/data/media/temp/sess6/0", buf)] : FS)) = (recs, fs) :=
    Except.ok.inj h
  cases h2
  constructor
  · intro hf
    subst hf
    rfl
  · intro hf
    match fim with
    | none => rfl
    | some false => rfl
    | some true => exact absurd rfl hf

/-- C6 witness: the skip behaviour instantiated with the option omitted
and a one-byte staged file. -/
theorem C6_failIfMissing_witness :
    saveTempFiles TEMP_ROOT [] (chars "sess6")
      [⟨chars "a.bin", chars "application/octet-stream", [1]⟩]
      = .ok ([⟨0, chars "a.bin", chars "application/octet-stream", 1,
          chars "/data/media/temp/sess6/0"⟩],
        [(chars "/data/media/temp/sess6/0", [1])]) ∧
    (none : Option Bool) ≠ some true ∧
    commitTempToFinal TEMP_ROOT FINAL_ROOT PUBLIC_BASE_URL none
      [(chars "/data/media/temp/sess6/0", [1])] (chars "sess6") (chars "books/2")
      [⟨5, none, none, none⟩, ⟨0, some (chars "cover.webp"), none, none⟩]
      ⟨none, none⟩
      = .ok ([⟨chars "cover.webp", chars "books/2/cover.webp",
          chars "http://localhost:4000/books/2/cover.webp",
          chars "application/octet-stream", none, none, 1,
          computeSha256 [1]⟩],
        [(chars "/data/media/media/books/2/cover.webp", [1])],
        ["temp file index 5 missing - skipping"]) :=
  ⟨rfl, by decide,
    (C6_failIfMissing_truthy_gate [1] none _ _ rfl).2 (by decide)⟩

/-- C6 counterexample — with `options.failIfMissing` omitted, a mapping for
the missing temp index 5 does not reject the commit: the call succeeds,
skipping the mapping with a warning (and, the mapping list being
exhausted, still deleting the session directory). -/
theorem C6_counterexample_omitted_option_skips :
    commitTempToFinal TEMP_ROOT FINAL_ROOT PUBLIC_BASE_URL none
      [(chars "/data/media/temp/sess6/0", [1])] (chars "sess6") (chars "books/2")
      [⟨5, none, none, none⟩] ⟨none, none⟩
      = .ok ([], [], ["temp file index 5 missing - skipping"]) := by
  rfl

/-! ## Rule-table validator (src/unnamed/part_007: file-rules.ts,
detect-file-category.ts and the media validation middleware) -/

/-- One multer file as the middlewares see it: client-declared name and
MIME type, reported size, and the raw bytes. -/
structure MFile where
  originalname : String
  mimetype : String
  size : Nat
  buffer : List Nat
deriving DecidableEq

/-- A `FileRule` of file-rules.ts; the anchored case-insensitive extension
regex (for example `\.(jpe?g|png|webp|gif)$/i`) is carried as the list of
its lowercase suffix alternatives. -/
structure FileRule where
  category : String
  mimeTypes : List String
  extSuffixes : List String
  maxSize : Nat
deriving DecidableEq

/-- ASCII lowercasing (sufficient for the extension alternatives the
regexes of this code base test case-insensitively). -/
def toLowerAscii (l : List Char) : List Char :=
  l.map (fun c => if 65 ≤ c.toNat ∧ c.toNat ≤ 90 then Char.ofNat (c.toNat + 32) else c)

/-- `rule.extensions.test(name)` for the suffix-alternation regexes. -/
def extTest (r : FileRule) (name : String) : Bool :=
  r.extSuffixes.any (fun e => e.data.isSuffixOf (toLowerAscii name.data))

/-- The `FILE_RULES` table, byte-size limits included. -/
def FILE_RULES : List FileRule :=
  [⟨"image", ["image/jpeg", "image/png", "image/webp", "image/gif"],
    [".jpg", ".jpeg", ".png", ".webp", ".gif"], 5242880⟩,
   ⟨"video", ["video/mp4", "video/webm", "video/quicktime"],
    [".mp4", ".webm", ".mov"], 157286400⟩,
   ⟨"audio", ["audio/mpeg", "audio/wav", "audio/ogg"],
    [".mp3", ".wav", ".ogg"], 20971520⟩,
   ⟨"json", ["application/json"], [".json"], 2097152⟩,
   ⟨"text", ["text/plain"], [".txt"], 1048576⟩,
   ⟨"zip", ["application/zip", "application/x-zip-compressed"],
    [".zip"], 52428800⟩]

/-- Embedding of `detectFileRule`: the first rule whose MIME list contains
the client-declared type and whose extension regex matches the
client-declared filename. The bytes are never consulted. -/
def detectFileRule (f : MFile) : Option FileRule :=
  FILE_RULES.find? (fun r => r.mimeTypes.contains f.mimetype && extTest r f.originalname)

structure ValidatedFile where
  file : MFile
  category : String
deriving DecidableEq

/-- Response of `mediaValidationMiddleware`: an early 400 with one code and
message, or the validated list attached to the request. -/
inductive MVResult
  | reject (code message : String)
  | accept (validatedFiles : List ValidatedFile)
deriving DecidableEq

/-- The middleware loop: empty-file check, category detection, then size
check, returning on the FIRST failing file. -/
def mvGo : List MFile → List ValidatedFile → MVResult
  | [], acc => .accept acc.reverse
  | f :: rest, acc =>
    if f.size = 0 then
      .reject "EMPTY_FILE" ("Empty file: " ++ f.originalname)
    else
      match detectFileRule f with
      | none => .reject "INVALID_FILE_TYPE" ("File type not allowed: " ++ f.originalname)
      | some rule =>
        if rule.maxSize < f.size then
          .reject "FILE_TOO_LARGE" (f.originalname ++ " exceeds max size for " ++ rule.category)
        else
          mvGo rest (⟨f, rule.category⟩ :: acc)

/-- Embedding of `mediaValidationMiddleware` (src/unnamed/part_007). -/
def mediaValidationMiddleware (files : List MFile) : MVResult :=
  if files.length = 0 then .reject "NO_FILES" "No files uploaded"
  else mvGo files []

/-! ## Signature-based validator
(src/middlewares/media-validate-and-dispatch.middleware.ts) -/

/-- The PNG magic bytes. -/
def pngSignature : List Nat := [0x89, 0x50, 0x4E, 0x47, 0x0D, 0x0A, 0x1A, 0x0A]

/-- Modelled from the spec: `fileTypeFromBuffer` of the external
`file-type` library — magic-number sniffing over the leading bytes for a
representative signature set; `none` when no signature matches (the
try/catch of `detectFileType` also maps errors to null). -/
def fileTypeFromBuffer (bytes : List Nat) : Option (String × String) :=
  if pngSignature.isPrefixOf bytes then some ("image/png", "png")
  else if [0xFF, 0xD8, 0xFF].isPrefixOf bytes then some ("image/jpeg", "jpg")
  else if [0x25, 0x50, 0x44, 0x46].isPrefixOf bytes then some ("application/pdf", "pdf")
  else if [0x47, 0x49, 0x46, 0x38].isPrefixOf bytes then some ("image/gif", "gif")
  else if [0x1A, 0x45, 0xDF, 0xA3].isPrefixOf bytes then some ("video/webm", "webm")
  else if [0x49, 0x44, 0x33].isPrefixOf bytes then some ("audio/mpeg", "mp3")
  else none

/-- Embedding of `detectFileType` for in-memory files: sniff the buffer
content (the disk-file branch probes the same signatures from the path). -/
def detectFileType (f : MFile) : Option (String × String) :=
  fileTypeFromBuffer f.buffer

/-- The `RULES.image` block (`MAX_IMAGE_*` environment with defaults). -/
structure ImageRule where
  maxBytes : Nat
  maxWidth : Nat
  maxHeight : Nat
  maxFiles : Nat
deriving DecidableEq

/-- The `RULES.document` block. -/
structure DocumentRule where
  maxBytes : Nat
  maxPages : Nat
  maxFiles : Nat
deriving DecidableEq

/-- The `RULES.audio` block. -/
structure AudioRule where
  maxBytes : Nat
  maxDuration : Nat
  maxFiles : Nat
deriving DecidableEq

/-- The `RULES.video` block. -/
structure VideoRule where
  maxBytes : Nat
  maxDuration : Nat
  maxWidth : Nat
  maxHeight : Nat
  maxFiles : Nat
deriving DecidableEq

/-- The `RULES.general` block. -/
structure GeneralRule where
  maxTotalFiles : Nat
deriving DecidableEq

/-- The whole `RULES` table (environment-tunable, hence a parameter). -/
structure Rules where
  image : ImageRule
  document : DocumentRule
  audio : AudioRule
  video : VideoRule
  general : GeneralRule
deriving DecidableEq

/-- The default `RULES` values with no environment overrides. -/
def defaultRules : Rules :=
  ⟨⟨10485760, 8000, 10000, 100⟩, ⟨209715200, 200, 10⟩, ⟨52428800, 600, 20⟩,
   ⟨524288000, 1800, 3840, 2160, 10⟩, ⟨200⟩⟩

/-- The detected media kind (`decide kind` in the source). -/
inductive MKind
  | image
  | video
  | audio
  | document
  | unknown
deriving DecidableEq

def kindStr : MKind → String
  | .image => "image"
  | .video => "video"
  | .audio => "audio"
  | .document => "document"
  | .unknown => "unknown"

/-- Modelled from the spec: the shape ffprobe reports for a media file
(format duration in whole seconds, and the video stream dimensions). -/
structure ProbeFormat where
  duration : Option Nat
  videoWidth : Option Nat
  videoHeight : Option Nat
deriving DecidableEq

/-- Modelled from the spec: the optional decoding dependencies — Jimp image
decoding, pdf-lib page counting and the ffprobe media probe. `none` stands
for a decode failure or an absent probe binary. -/
structure Decoders where
  jimpRead : List Nat → Option (Nat × Nat)
  pdfLoad : List Nat → Option Nat
  ffprobe : List Nat → Option ProbeFormat

/-- Observable actions a validator performs on one file, in order:
signature sniffing, the per-category byte-size check, and invoking a
decoder (Jimp, pdf-lib, ffprobe). -/
inductive VEvent
  | sniff
  | sizeCheck (kind : MKind)
  | decode (kind : MKind)
deriving DecidableEq

/-- Structural metadata attached to a validated file. -/
inductive VMeta
  | dims (width height : Nat)
  | pages (count : Nat)
  | probe (format : ProbeFormat)
deriving DecidableEq

/-- Outcome of a per-type validator. -/
inductive VOutcome
  | ok (meta : Option VMeta)
  | fail (reason : String)
deriving DecidableEq

/-- Embedding of `validateImage`: size check first (skipped when the limit
is configured to 0, as JS truthiness does), then Jimp decoding and the
dimension checks. The trace records the actions that actually ran. -/
def validateImage (rules : Rules) (dec : Decoders) (f : MFile) :
    VOutcome × List VEvent :=
  let rule := rules.image
  if rule.maxBytes ≠ 0 ∧ f.size > rule.maxBytes then
    (.fail ("file too large (" ++ toString f.size ++ ")"), [.sizeCheck .image])
  else
    match dec.jimpRead f.buffer with
    | none => (.fail "image metadata failed", [.sizeCheck .image, .decode .image])
    | some (w, h) =>
      if rule.maxWidth ≠ 0 ∧ w > rule.maxWidth then
        (.fail ("width " ++ toString w ++ " > " ++ toString rule.maxWidth),
          [.sizeCheck .image, .decode .image])
      else if rule.maxHeight ≠ 0 ∧ h > rule.maxHeight then
        (.fail ("height " ++ toString h ++ " > " ++ toString rule.maxHeight),
          [.sizeCheck .image, .decode .image])
      else
        (.ok (some (.dims w h)), [.sizeCheck .image, .decode .image])

/-- Embedding of `validateDocument`: size check first, then pdf-lib page
counting. -/
def validateDocument (rules : Rules) (dec : Decoders) (f : MFile) :
    VOutcome × List VEvent :=
  let rule := rules.document
  if rule.maxBytes ≠ 0 ∧ f.size > rule.maxBytes then
    (.fail ("document too large (" ++ toString f.size ++ ")"), [.sizeCheck .document])
  else
    match dec.pdfLoad f.buffer with
    | none => (.fail "pdf parse failed", [.sizeCheck .document, .decode .document])
    | some pages =>
      if rule.maxPages ≠ 0 ∧ pages > rule.maxPages then
        (.fail ("too many pages (" ++ toString pages ++ ")"),
          [.sizeCheck .document, .decode .document])
      else
        (.ok (some (.pages pages)), [.sizeCheck .document, .decode .document])

/-- The byte cap `RULES[kind].maxBytes` for the audio/video validator. -/
def avMaxBytes (rules : Rules) : MKind → Nat
  | .video => rules.video.maxBytes
  | _ => rules.audio.maxBytes

/-- The duration cap `RULES[kind].maxDuration` for the audio/video validator. -/
def avMaxDuration (rules : Rules) : MKind → Nat
  | .video => rules.video.maxDuration
  | _ => rules.audio.maxDuration

/-- Embedding of `validateAudioVideo`: size check first, then the ffprobe
attempt (the source always probes in the buffer branch, writing a small
temp file first); a missing or failed probe falls back to acceptance with
no metadata. Null or zero duration/width/height skip their checks, as the
JS truthiness guards do. -/
def validateAudioVideo (rules : Rules) (dec : Decoders) (f : MFile) (k : MKind) :
    VOutcome × List VEvent :=
  let maxBytes := avMaxBytes rules k
  let maxDuration := avMaxDuration rules k
  if maxBytes ≠ 0 ∧ f.size > maxBytes then
    (.fail ("file too large (" ++ toString f.size ++ ")"), [.sizeCheck k])
  else
    match dec.ffprobe f.buffer with
    | none => (.ok none, [.sizeCheck k, .decode k])
    | some meta =>
      let durationFailure : Option String := match meta.duration with
        | some d =>
          if maxDuration ≠ 0 ∧ d ≠ 0 ∧ d > maxDuration then
            some ("duration " ++ toString d ++ "s > " ++ toString maxDuration ++ "s")
          else none
        | none => none
      match durationFailure with
      | some msg => (.fail msg, [.sizeCheck k, .decode k])
      | none =>
        match k with
        | .video =>
          let widthFailure : Option String := match meta.videoWidth with
            | some w =>
              if rules.video.maxWidth ≠ 0 ∧ w ≠ 0 ∧ w > rules.video.maxWidth then
                some ("width " ++ toString w ++ " > " ++ toString rules.video.maxWidth)
              else none
            | none => none
          match widthFailure with
          | some msg => (.fail msg, [.sizeCheck k, .decode k])
          | none =>
            let heightFailure : Option String := match meta.videoHeight with
              | some h =>
                if rules.video.maxHeight ≠ 0 ∧ h ≠ 0 ∧ h > rules.video.maxHeight then
                  some ("height " ++ toString h ++ " > " ++ toString rules.video.maxHeight)
                else none
              | none => none
            match heightFailure with
            | some msg => (.fail msg, [.sizeCheck k, .decode k])
            | none => (.ok (some (.probe meta)), [.sizeCheck k, .decode k])
        | _ => (.ok (some (.probe meta)), [.sizeCheck k, .decode k])

/-- Split on a separator character (the JS `split`). -/
def splitOnChar (sep : Char) : List Char → List (List Char)
  | [] => [[]]
  | c :: rest =>
    if c = sep then [] :: splitOnChar sep rest
    else
      match splitOnChar sep rest with
      | [] => [[c]]
      | s :: ss => (c :: s) :: ss

/-- The extension fallback `((originalname || "").split(".").pop() || "").toLowerCase()`. -/
def extFallback (name : String) : String :=
  String.mk (toLowerAscii ((splitOnChar '.' name.data).getLastD []))

/-- The `decide kind` block: MIME prefix tests first, then the extension
heuristics. -/
def decideKind (mime ext : String) : MKind :=
  if (chars "image/").isPrefixOf mime.data then .image
  else if (chars "video/").isPrefixOf mime.data then .video
  else if (chars "audio/").isPrefixOf mime.data then .audio
  else if mime = "application/pdf" then .document
  else if ["jpg", "jpeg", "png", "webp", "gif", "bmp", "tif", "tiff"].contains ext then .image
  else if ["mp4", "mkv", "mov", "avi", "webm"].contains ext then .video
  else if ["mp3", "wav", "ogg", "m4a"].contains ext then .audio
  else if ext = "pdf" then .document
  else .unknown

/-- What the per-file section of the `validateAndDispatchPure` loop
produced: the effective mime/ext, the decided kind, the validator outcome,
and the ordered action trace. -/
structure PerFile where
  mime : String
  ext : String
  kind : MKind
  outcome : VOutcome
  trace : List VEvent
deriving DecidableEq

/-- The guard `requestedType && requestedType !== "mixed" &&
requestedType !== kind` (an absent or empty requested type is `none`). -/
def typeMismatch (requestedType : Option String) (kind : MKind) : Bool :=
  match requestedType with
  | some t => t != "mixed" && t != kindStr kind
  | none => false

/-- One iteration of the `validateAndDispatchPure` loop: sniff the
signature, fall back to the client-declared mime/extension only when
sniffing failed, decide the kind, enforce the optional requested type, and
dispatch to the kind validator. -/
def processOne (rules : Rules) (dec : Decoders) (requestedType : Option String)
    (f : MFile) : PerFile :=
  let dt := detectFileType f
  let mime := match dt with
    | some r => r.1
    | none => f.mimetype
  let ext := match dt with
    | some r => r.2
    | none => extFallback f.originalname
  let kind := decideKind mime ext
  if typeMismatch requestedType kind then
    ⟨mime, ext, kind,
      .fail ("expected " ++ (requestedType.getD "") ++ " but detected " ++ kindStr kind),
      [.sniff]⟩
  else
    let vr := match kind with
      | .image => validateImage rules dec f
      | .document => validateDocument rules dec f
      | .audio => validateAudioVideo rules dec f .audio
      | .video => validateAudioVideo rules dec f .video
      | .unknown => (.fail "unsupported file type", [])
    ⟨mime, ext, kind, vr.1, .sniff :: vr.2⟩

/-- One entry of `req.validatedFiles`. -/
structure VEntry where
  index : Nat
  originalname : String
  size : Nat
  mime : String
  ext : String
  type : MKind
  meta : Option VMeta
deriving DecidableEq

/-- The batch loop of `validateAndDispatchPure`: collect the failures of
EVERY file (index and reason) and the validated entries, in order. -/
def vadGo (rules : Rules) (dec : Decoders) (requestedType : Option String) :
    Nat → List MFile → List (Nat × String) → List VEntry →
    List (Nat × String) × List VEntry
  | _, [], errs, acc => (errs.reverse, acc.reverse)
  | i, f :: rest, errs, acc =>
    let r := processOne rules dec requestedType f
    match r.outcome with
    | .fail reason => vadGo rules dec requestedType (i + 1) rest ((i, reason) :: errs) acc
    | .ok meta =>
      vadGo rules dec requestedType (i + 1) rest errs
        (⟨i, f.originalname, f.size, r.mime, r.ext, r.kind, meta⟩ :: acc)

/-- Response of `validateAndDispatchPure`: an early 400 (no files / too
many files), a 400 `validation_failed` with the itemised details, or the
validated list attached to the request. -/
inductive VADResult
  | earlyError (message : String)
  | reject (details : List (Nat × String))
  | accept (validatedFiles : List VEntry)
deriving DecidableEq

/-- Embedding of `validateAndDispatchPure`. -/
def validateAndDispatchPure (rules : Rules) (dec : Decoders)
    (requestedType : Option String) (files : List MFile) : VADResult :=
  if files.length = 0 then .earlyError "no files uploaded"
  else if rules.general.maxTotalFiles ≠ 0 ∧ files.length > rules.general.maxTotalFiles then
    .earlyError ("too many files in request (max " ++ toString rules.general.maxTotalFiles ++ ")")
  else
    let r := vadGo rules dec requestedType 0 files [] []
    if r.1 ≠ [] then .reject r.1 else .accept r.2

/-! ## C2: classification source of truth -/

/-- Fixed decoders for the concrete witnesses: images decode to 100x100,
documents to 3 pages, media to a 10 s 640x480 stream. -/
def demoDecoders : Decoders :=
  ⟨fun _ => some (100, 100), fun _ => some 3, fun _ => some ⟨some 10, some 640, some 480⟩⟩

/-- The forged upload of the claim: PNG magic bytes, but declared
`text/plain` and named `evil.txt`. -/
def forgedPng : MFile := ⟨"evil.txt", "text/plain", 2097152, pngSignature ++ [0, 0, 0, 0]⟩

/-- C2 (amended) — in the sniffing pipeline (`detectFileType` +
`validateAndDispatchPure`) the kind used for policy dispatch comes from the
byte content: any file whose buffer carries the PNG signature is classified
`image` and dispatched to the image validator, whatever its declared MIME
type or filename; the declared values are consulted only when sniffing
returns nothing. The original claim extended this to `detectFileRule`,
which in fact never reads the bytes; see
`C2_counterexample_detectFileRule_trusts_declared`. -/
theorem C2_sniffed_content_decides_kind (rules : Rules) (dec : Decoders)
    (f : MFile) (h : pngSignature.isPrefixOf f.buffer = true) :
    (processOne rules dec none f).mime = "image/png" ∧
    (processOne rules dec none f).kind = .image ∧
    (processOne rules dec none f).outcome = (validateImage rules dec f).1 := by
  have hdt : detectFileType f = some ("image/png", "png") := by
    unfold detectFileType fileTypeFromBuffer
    rw [if_pos h]
  unfold processOne
  rw [hdt]
  exact ⟨rfl, rfl, rfl⟩

/-- C2 witness: the theorem instantiated at the forged PNG — the sniffing
pipeline classifies it `image` despite the text name and MIME type. -/
theorem C2_sniffed_content_witness :
    pngSignature.isPrefixOf forgedPng.buffer = true ∧
    (processOne defaultRules demoDecoders none forgedPng).kind = .image :=
  ⟨by decide,
    (C2_sniffed_content_decides_kind defaultRules demoDecoders forgedPng (by decide)).2.1⟩

/-- C2 counterexample — `detectFileRule` classifies from the declared MIME
type and filename only: the forged PNG matches the `text` rule, and the
rule-table middleware then enforces the text policy on it (its 2 MB size is
under the 5 MB image cap but over the 1 MB text cap, so the request is
rejected as FILE_TOO_LARGE for the text category). -/
theorem C2_counterexample_detectFileRule_trusts_declared :
    (detectFileRule forgedPng).map (fun r => r.category) = some "text" ∧
    mediaValidationMiddleware [forgedPng]
      = .reject "FILE_TOO_LARGE" "evil.txt exceeds max size for text" := by
  constructor
  · decide
  · decide

/-! ## C3: batch atomicity and itemised failures -/

/-- The indexed failure list the `validateAndDispatchPure` loop produces:
one `(index, reason)` entry for every failing file of the batch. -/
def failList (rules : Rules) (dec : Decoders) (rt : Option String) :
    Nat → List MFile → List (Nat × String)
  | _, [] => []
  | i, f :: rest =>
    match (processOne rules dec rt f).outcome with
    | .fail reason => (i, reason) :: failList rules dec rt (i + 1) rest
    | .ok _ => failList rules dec rt (i + 1) rest

theorem vadGo_errors (rules : Rules) (dec : Decoders) (rt : Option String) :
    ∀ (files : List MFile) (i : Nat) (errs : List (Nat × String)) (acc : List VEntry),
      (vadGo rules dec rt i files errs acc).1
        = errs.reverse ++ failList rules dec rt i files := by
  intro files
  induction files with
  | nil => intro i errs acc; simp [vadGo, failList]
  | cons f rest ih =>
    intro i errs acc
    unfold vadGo failList
    cases houtcome : (processOne rules dec rt f).outcome with
    | fail reason => simp [houtcome, ih]
    | ok meta => simp [houtcome, ih]

theorem mem_failList (rules : Rules) (dec : Decoders) (rt : Option String) :
    ∀ (files : List MFile) (i j : Nat) (g : MFile) (reason : String),
      files.get? j = some g → (processOne rules dec rt g).outcome = .fail reason →
      (i + j, reason) ∈ failList rules dec rt i files := by
  intro files
  induction files with
  | nil => intro i j g reason hj; simp at hj
  | cons f rest ih =>
    intro i j g reason hj hfail
    cases j with
    | zero =>
      simp at hj
      subst hj
      unfold failList
      rw [hfail]
      simp
    | succ j2 =>
      simp only [List.get?_cons_succ] at hj
      have hmem := ih (i + 1) j2 g reason hj hfail
      have harith : i + 1 + j2 = i + (j2 + 1) := by omega
      rw [harith] at hmem
      unfold failList
      cases (processOne rules dec rt f).outcome with
      | fail r0 => exact List.mem_cons.mpr (Or.inr hmem)
      | ok m0 => exact hmem

/-- C3 (amended) — in `validateAndDispatchPure` a batch with at least one
failing file is rejected as a whole: the response is the itemised failure
list containing the index and reason of EVERY failing file (not just the
first), and no validated list is attached. The original claim also
asserted this for `mediaValidationMiddleware`, which instead returns on
the first failure; see `C3_counterexample_mv_reports_first_failure_only`. -/
theorem C3_vad_rejects_batch_with_itemized_failures (rules : Rules)
    (dec : Decoders) (rt : Option String) (files : List MFile) (i : Nat)
    (f : MFile) (reason : String)
    (hne : files ≠ [])
    (hlim : ¬(rules.general.maxTotalFiles ≠ 0 ∧ files.length > rules.general.maxTotalFiles))
    (hi : files.get? i = some f)
    (hfail : (processOne rules dec rt f).outcome = .fail reason) :
    validateAndDispatchPure rules dec rt files
      = .reject (failList rules dec rt 0 files) ∧
    (∀ j g r2, files.get? j = some g →
      (processOne rules dec rt g).outcome = .fail r2 →
      (j, r2) ∈ failList rules dec rt 0 files) ∧
    (∀ v, validateAndDispatchPure rules dec rt files ≠ .accept v) := by
  have hmem : (i, reason) ∈ failList rules dec rt 0 files := by
    have := mem_failList rules dec rt files 0 i f reason hi hfail
    simpa using this
  have herrs : (vadGo rules dec rt 0 files [] []).1 = failList rules dec rt 0 files := by
    simpa using vadGo_errors rules dec rt files 0 [] []
  have hmain : validateAndDispatchPure rules dec rt files
      = .reject (failList rules dec rt 0 files) := by
    unfold validateAndDispatchPure
    rw [if_neg (by simpa using hne), if_neg hlim]
    show (if (vadGo rules dec rt 0 files [] []).1 ≠ [] then
        VADResult.reject (vadGo rules dec rt 0 files [] []).1
      else VADResult.accept (vadGo rules dec rt 0 files [] []).2)
      = VADResult.reject (failList rules dec rt 0 files)
    rw [herrs, if_pos (List.ne_nil_of_mem hmem)]
  refine ⟨hmain, ?_, ?_⟩
  · intro j g r2 hj hf2
    have := mem_failList rules dec rt files 0 j g r2 hj hf2
    simpa using this
  · intro v hv
    rw [hmain] at hv
    exact absurd hv (by simp)

/-- A benign PNG upload used in the batch witnesses. -/
def okPng : MFile := ⟨"a.png", "image/png", 50, pngSignature⟩

/-- An oversized PNG (one byte over the 10 MB default image cap). -/
def bigPng : MFile := ⟨"big.png", "image/png", 10485761, pngSignature⟩

/-- A file no signature and no heuristic recognises. -/
def unknownFile : MFile := ⟨"weird.xyz", "application/x-thing", 10, [1, 2, 3]⟩

/-- C3 witness: a three-file batch whose files at index 1 (too large) and
index 2 (unsupported type) both fail — the batch is rejected with the full
failure list. -/
theorem C3_vad_itemized_witness :
    ([okPng, bigPng, unknownFile] : List MFile) ≠ [] ∧
    ¬(defaultRules.general.maxTotalFiles ≠ 0 ∧
      ([okPng, bigPng, unknownFile] : List MFile).length > defaultRules.general.maxTotalFiles) ∧
    ([okPng, bigPng, unknownFile] : List MFile).get? 1 = some bigPng ∧
    (processOne defaultRules demoDecoders none bigPng).outcome
      = .fail "file too large (10485761)" ∧
    validateAndDispatchPure defaultRules demoDecoders none [okPng, bigPng, unknownFile]
      = .reject (failList defaultRules demoDecoders none 0 [okPng, bigPng, unknownFile]) :=
  ⟨by decide, by decide, by decide, by decide,
    (C3_vad_rejects_batch_with_itemized_failures defaultRules demoDecoders none
      [okPng, bigPng, unknownFile] 1 bigPng "file too large (10485761)"
      (by decide) (by decide) (by decide) (by decide)).1⟩

/-- C3 counterexample — `mediaValidationMiddleware` reports only the FIRST
failing file: two batches of three files that differ in their (failing)
third file produce the identical single-error response naming only the
second file, so the response cannot be covering every failing file's index
and reason. -/
theorem C3_counterexample_mv_reports_first_failure_only :
    mediaValidationMiddleware
      [⟨"ok.png", "image/png", 100, []⟩, ⟨"b1.weird", "application/x", 5, []⟩,
       ⟨"huge.txt", "text/plain", 2097152, []⟩]
      = .reject "INVALID_FILE_TYPE" "File type not allowed: b1.weird" ∧
    mediaValidationMiddleware
      [⟨"ok.png", "image/png", 100, []⟩, ⟨"b1.weird", "application/x", 5, []⟩,
       ⟨"other.zzz", "application/other", 7, []⟩]
      = .reject "INVALID_FILE_TYPE" "File type not allowed: b1.weird" := by
  constructor
  · decide
  · decide

/-! ## C8: ordering of size checks, sniffing and decoding -/

/-- The byte cap the rule table assigns to a kind (`unknown` has none). -/
def maxBytesFor (rules : Rules) : MKind → Nat
  | .image => rules.image.maxBytes
  | .document => rules.document.maxBytes
  | .audio => rules.audio.maxBytes
  | .video => rules.video.maxBytes
  | .unknown => 0

theorem validateImage_trace (rules : Rules) (dec : Decoders) (f : MFile) :
    (validateImage rules dec f).2
      = if rules.image.maxBytes ≠ 0 ∧ f.size > rules.image.maxBytes then
          [.sizeCheck .image]
        else [.sizeCheck .image, .decode .image] := by
  unfold validateImage
  by_cases hsz : rules.image.maxBytes ≠ 0 ∧ f.size > rules.image.maxBytes
  · rw [if_pos hsz, if_pos hsz]
  · rw [if_neg hsz, if_neg hsz]
    rcases hj : dec.jimpRead f.buffer with _ | ⟨w, hgt⟩
    · rfl
    · repeat' split
      all_goals rfl

theorem validateDocument_trace (rules : Rules) (dec : Decoders) (f : MFile) :
    (validateDocument rules dec f).2
      = if rules.document.maxBytes ≠ 0 ∧ f.size > rules.document.maxBytes then
          [.sizeCheck .document]
        else [.sizeCheck .document, .decode .document] := by
  unfold validateDocument
  by_cases hsz : rules.document.maxBytes ≠ 0 ∧ f.size > rules.document.maxBytes
  · rw [if_pos hsz, if_pos hsz]
  · rw [if_neg hsz, if_neg hsz]
    rcases hp : dec.pdfLoad f.buffer with _ | pages
    · rfl
    · repeat' split
      all_goals rfl

theorem validateAudioVideo_trace (rules : Rules) (dec : Decoders) (f : MFile)
    (k : MKind) :
    (validateAudioVideo rules dec f k).2
      = if avMaxBytes rules k ≠ 0 ∧ f.size > avMaxBytes rules k then
          [.sizeCheck k]
        else [.sizeCheck k, .decode k] := by
  unfold validateAudioVideo
  by_cases hsz : avMaxBytes rules k ≠ 0 ∧ f.size > avMaxBytes rules k
  · rw [if_pos hsz, if_pos hsz]
  · rw [if_neg hsz, if_neg hsz]
    rcases hp : dec.ffprobe f.buffer with _ | meta
    · rfl
    · repeat' split
      all_goals rfl

theorem decode_mem_validateImage {rules : Rules} {dec : Decoders} {f : MFile}
    {k : MKind} (h : VEvent.decode k ∈ (validateImage rules dec f).2) :
    k = .image ∧ ¬(rules.image.maxBytes ≠ 0 ∧ f.size > rules.image.maxBytes) := by
  rw [validateImage_trace] at h
  by_cases hsz : rules.image.maxBytes ≠ 0 ∧ f.size > rules.image.maxBytes
  · rw [if_pos hsz] at h
    simp at h
  · rw [if_neg hsz] at h
    simp at h
    exact ⟨h, hsz⟩

theorem decode_mem_validateDocument {rules : Rules} {dec : Decoders} {f : MFile}
    {k : MKind} (h : VEvent.decode k ∈ (validateDocument rules dec f).2) :
    k = .document ∧ ¬(rules.document.maxBytes ≠ 0 ∧ f.size > rules.document.maxBytes) := by
  rw [validateDocument_trace] at h
  by_cases hsz : rules.document.maxBytes ≠ 0 ∧ f.size > rules.document.maxBytes
  · rw [if_pos hsz] at h
    simp at h
  · rw [if_neg hsz] at h
    simp at h
    exact ⟨h, hsz⟩

theorem decode_mem_validateAudioVideo {rules : Rules} {dec : Decoders} {f : MFile}
    {k k2 : MKind} (h : VEvent.decode k2 ∈ (validateAudioVideo rules dec f k).2) :
    k2 = k ∧ ¬(avMaxBytes rules k ≠ 0 ∧ f.size > avMaxBytes rules k) := by
  rw [validateAudioVideo_trace] at h
  split at h
  · simp at h
  · rename_i hguard
    simp at h
    exact ⟨h, hguard⟩

/-- C8 (amended) — a decoder (Jimp, pdf-lib, ffprobe) is never invoked on a
file whose size exceeds its category's configured byte cap: every per-kind
validator performs the size check before decoding. (The original claim
also put the size check before content sniffing, but signature sniffing is
the first action of the loop and runs before any size check; see
`C8_counterexample_sniff_before_size_check`.) -/
theorem C8_decoders_size_gated (rules : Rules) (dec : Decoders)
    (rt : Option String) (f : MFile) (k : MKind)
    (hdec : VEvent.decode k ∈ (processOne rules dec rt f).trace)
    (hmax : maxBytesFor rules k ≠ 0) : f.size ≤ maxBytesFor rules k := by
  simp only [processOne] at hdec
  split at hdec
  · simp at hdec
  · simp only [] at hdec
    rw [List.mem_cons] at hdec
    rcases hdec with hbad | hdec
    · exact absurd hbad (by simp)
    · split at hdec
      · rcases decode_mem_validateImage hdec with ⟨rfl, hguard⟩
        have : ¬ f.size > rules.image.maxBytes := fun hgt => hguard ⟨hmax, hgt⟩
        simpa [maxBytesFor] using Nat.le_of_not_lt this
      · rcases decode_mem_validateDocument hdec with ⟨rfl, hguard⟩
        have : ¬ f.size > rules.document.maxBytes := fun hgt => hguard ⟨hmax, hgt⟩
        simpa [maxBytesFor] using Nat.le_of_not_lt this
      · rcases decode_mem_validateAudioVideo hdec with ⟨rfl, hguard⟩
        have : ¬ f.size > rules.audio.maxBytes :=
          fun hgt => hguard ⟨by simpa [avMaxBytes] using hmax, by simpa [avMaxBytes] using hgt⟩
        simpa [maxBytesFor] using Nat.le_of_not_lt this
      · rcases decode_mem_validateAudioVideo hdec with ⟨rfl, hguard⟩
        have : ¬ f.size > rules.video.maxBytes :=
          fun hgt => hguard ⟨by simpa [avMaxBytes] using hmax, by simpa [avMaxBytes] using hgt⟩
        simpa [maxBytesFor] using Nat.le_of_not_lt this
      · simp at hdec

/-- C8 witness: a 50-byte PNG is decoded (the decode event is in its
trace) and the theorem yields its size bound. -/
theorem C8_decoders_size_gated_witness :
    VEvent.decode .image ∈ (processOne defaultRules demoDecoders none okPng).trace ∧
    maxBytesFor defaultRules .image ≠ 0 ∧
    okPng.size ≤ maxBytesFor defaultRules .image :=
  ⟨by decide, by decide,
    C8_decoders_size_gated defaultRules demoDecoders none okPng .image
      (by decide) (by decide)⟩

/-- C8 counterexample — the size check does not precede content sniffing:
on a PNG one byte over the image cap, the trace starts with the signature
sniff and only then reaches the image size check (no decode follows). -/
theorem C8_counterexample_sniff_before_size_check :
    (processOne defaultRules demoDecoders none bigPng).trace
      = [.sniff, .sizeCheck .image] ∧
    bigPng.size > defaultRules.image.maxBytes := by
  constructor
  · decide
  · decide

/-! ## C10: empty files in a batch -/

/-- A file clears the per-file checks of `mediaValidationMiddleware`:
nonempty, a rule matches, and the size is within the rule's cap. -/
def mvPasses (g : MFile) : Bool :=
  decide (g.size ≠ 0) &&
    (match detectFileRule g with
     | some r => decide (g.size ≤ r.maxSize)
     | none => false)

theorem mvGo_reject_of_empty :
    ∀ (files : List MFile) (acc : List ValidatedFile),
      (∃ f ∈ files, f.size = 0) →
      ∃ code msg, mvGo files acc = .reject code msg := by
  intro files
  induction files with
  | nil => intro acc h; simp at h
  | cons f rest ih =>
    intro acc ⟨g, hg, hsz⟩
    unfold mvGo
    by_cases hf : f.size = 0
    · rw [if_pos hf]
      exact ⟨_, _, rfl⟩
    · rw [if_neg hf]
      have hgr : g ∈ rest := by
        rcases List.mem_cons.mp hg with rfl | h2
        · exact absurd hsz hf
        · exact h2
      split
      · exact ⟨_, _, rfl⟩
      · split
        · exact ⟨_, _, rfl⟩
        · exact ih _ ⟨g, hgr, hsz⟩

theorem mvGo_empty_after_passing :
    ∀ (pre : List MFile) (acc : List ValidatedFile) (f : MFile) (post : List MFile),
      (∀ g ∈ pre, mvPasses g = true) → f.size = 0 →
      mvGo (pre ++ f :: post) acc
        = .reject "EMPTY_FILE" ("Empty file: " ++ f.originalname) := by
  intro pre
  induction pre with
  | nil =>
    intro acc f post _ hf
    rw [List.nil_append]
    simp only [mvGo]
    rw [if_pos hf]
  | cons g pre2 ih =>
    intro acc f post hpass hf
    have hg := hpass g (List.mem_cons_self g pre2)
    unfold mvPasses at hg
    rw [Bool.and_eq_true] at hg
    have hgsz : g.size ≠ 0 := by simpa using hg.1
    rw [List.cons_append]
    simp only [mvGo]
    rw [if_neg hgsz]
    split
    · rename_i heq
      rw [heq] at hg
      simp at hg
    · rename_i rule heq
      rw [heq] at hg
      have hle : g.size ≤ rule.maxSize := by simpa using hg.2
      split
      · rename_i hbig
        exact absurd hbig (by omega)
      · exact ih _ f post (fun x hx => hpass x (List.mem_cons.mpr (Or.inr hx))) hf

/-- C10 (amended) — a batch containing a zero-byte file is always rejected
by `mediaValidationMiddleware` (so no `validatedFiles` list is ever
attached), and the rejection is the `EMPTY_FILE` error naming that file
exactly when every file before it clears its own category and size checks;
an earlier failing file wins instead, because the per-file checks run in
file order. (The per-file empty check does precede that same file's
category detection.) See `C10_counterexample_earlier_failure_wins`. -/
theorem C10_empty_file_rejects_batch (files : List MFile)
    (h : ∃ f ∈ files, f.size = 0) :
    (∃ code msg, mediaValidationMiddleware files = .reject code msg) ∧
    (∀ pre f post, files = pre ++ f :: post → f.size = 0 →
      (∀ g ∈ pre, mvPasses g = true) →
      mediaValidationMiddleware files
        = .reject "EMPTY_FILE" ("Empty file: " ++ f.originalname)) := by
  have hne : files ≠ [] := by
    rcases h with ⟨g, hg, _⟩
    exact List.ne_nil_of_mem hg
  constructor
  · unfold mediaValidationMiddleware
    rw [if_neg (by simpa using hne)]
    exact mvGo_reject_of_empty files [] h
  · intro pre f post hsplit hf hpass
    subst hsplit
    unfold mediaValidationMiddleware
    rw [if_neg (by simp)]
    exact mvGo_empty_after_passing pre [] f post hpass hf

/-- C10 witness: a good PNG followed by a zero-byte file — the batch is
rejected with EMPTY_FILE naming the empty file. -/
theorem C10_empty_file_witness :
    (∃ f ∈ ([⟨"ok.png", "image/png", 100, []⟩, ⟨"empty.png", "image/png", 0, []⟩] :
      List MFile), f.size = 0) ∧
    mediaValidationMiddleware
      [⟨"ok.png", "image/png", 100, []⟩, ⟨"empty.png", "image/png", 0, []⟩]
      = .reject "EMPTY_FILE" "Empty file: empty.png" :=
  ⟨⟨⟨"empty.png", "image/png", 0, []⟩, by decide, rfl⟩,
    (C10_empty_file_rejects_batch _
      ⟨⟨"empty.png", "image/png", 0, []⟩, by decide, rfl⟩).2
      [⟨"ok.png", "image/png", 100, []⟩] ⟨"empty.png", "image/png", 0, []⟩ []
      rfl rfl (by decide)⟩

/-- C10 counterexample — the EMPTY_FILE rejection is not guaranteed and
category detection is not always avoided: when an earlier file fails its
type check, the batch containing a zero-byte file is rejected with
INVALID_FILE_TYPE for the earlier file, not EMPTY_FILE. -/
theorem C10_counterexample_earlier_failure_wins :
    mediaValidationMiddleware
      [⟨"weird.xyz", "application/x", 5, []⟩, ⟨"empty.png", "image/png", 0, []⟩]
      = .reject "INVALID_FILE_TYPE" "File type not allowed: weird.xyz" ∧
    "INVALID_FILE_TYPE" ≠ "EMPTY_FILE" := by
  constructor
  · decide
  · decide
